import Mathlib

/-!
# FileZilla data provider of sftpgo: embedding and verified properties

Shallow embedding of `dataprovider/filezilla_configuration.go` and
`dataprovider/filezilla.go`.

Conventions of the embedding

* Go strings are Lean strings; `len(s)` is the UTF-8 byte size and `[]byte(s)`
  the UTF-8 encoding. A password is kept as its raw bytes (`List UInt8`), the
  only uses of it in the source being `len(password)` and `[]byte(password)`.
* Go `int` and `int64` are `Int`; no arithmetic is done on them in these
  files, only comparisons and indexing.
* A Go `(value, error)` result is a pair whose second component is an
  `Option Error` (`none` is `nil`).
* A run-time panic (nil dereference, index out of range, `panic(err)`) is the
  `Outcome.panic` result.
* The mutex of the handle is not modelled: operations are run one at a time,
  and one operation sees one state of the configuration file.
* The libraries the source calls (`xmlquery`, `crypto/md5`, `crypto/sha512`,
  `encoding/hex`, `strings`, `sort`) are modelled by executable definitions.
-/

namespace Dataprovider

/-! ## Results -/

/-- Result of a Go call that either returns a value or panics. -/
inductive Outcome (α : Type) where
  | ret (a : α)
  | panic (reason : String)
deriving DecidableEq, Repr

/-- Go `error` values met in the two files. -/
inductive Error where
  /-- A value made by `errors.New(msg)`. -/
  | new (msg : String)
  /-- The value `&RecordNotFoundError{err: msg}`. -/
  | RecordNotFoundError (err : String)
  /-- An error of `os.Open` or `xmlquery.Parse`. -/
  | file (msg : String)
deriving DecidableEq, Repr

def errFilezillaProviderClosed : Error := Error.new "filezilla provider is closed"

def errFilezillaUnsupportsThisFeature : Error :=
  Error.new "Unsupported. Please use FileZilla Server Interface for all user-related configuration."

/-! ## Parsed XML and the path queries of the source -/

/-- Node of a parsed XML document (`xmlquery.Node`): elements carry the name
that a name test of a path step compares, their attributes (name and value) in
source order and their children; text and comment nodes carry their data. -/
inductive Node where
  | element (name : String) (attrs : List (String × String)) (children : List Node)
  | text (data : String)
  | comment (data : String)
deriving Repr

/-- Parsed document: the children of the document node. -/
structure Document where
  children : List Node
deriving Repr

namespace Node

/-- Children of a node, in document order. -/
def children : Node → List Node
  | element _ _ cs => cs
  | _ => []

/-- Element test by name, the name test of a path step. -/
def isElement (nm : String) : Node → Bool
  | element n _ _ => n == nm
  | _ => false

/-- Value of the attribute `nm`, when the node is an element that has it. -/
def attr? (nm : String) : Node → Option String
  | element _ attrs _ => (attrs.find? fun a => a.1 == nm).map Prod.snd
  | _ => none

/-- The method `SelectAttr`: the attribute value, or the empty string. -/
def SelectAttr (n : Node) (nm : String) : String := (n.attr? nm).getD ""

mutual
/-- The method `InnerText`: the text nodes below the node, concatenated. -/
def InnerText : Node → String
  | element _ _ cs => InnerTextList cs
  | text d => d
  | comment _ => ""
/-- Inner text of a run of sibling nodes. -/
def InnerTextList : List Node → String
  | [] => ""
  | c :: cs => c.InnerText ++ InnerTextList cs
end

mutual
/-- The node and everything below it, in document order. -/
def descendantOrSelf : Node → List Node
  | element n a cs => element n a cs :: descendantOrSelfList cs
  | text d => [text d]
  | comment d => [comment d]
/-- The axis `descendant-or-self` over a run of sibling nodes. -/
def descendantOrSelfList : List Node → List Node
  | [] => []
  | c :: cs => c.descendantOrSelf ++ descendantOrSelfList cs
end

end Node

/-- Result of `xmlquery.Find(doc, "//User")`: every `User` element of the
document, in document order. -/
def findUsers (doc : Document) : List Node :=
  (Node.descendantOrSelfList doc.children).filter (Node.isElement "User")

/-- Result of `xmlquery.FindOne(n, "Option[@Name=\"nm\"]")`: the first child
element `Option` whose attribute `Name` is `nm`, or nil. -/
def findOption (n : Node) (nm : String) : Option Node :=
  n.children.find? fun c => c.isElement "Option" && c.attr? "Name" == some nm

/-- Result of `xmlquery.Find(user, "Permissions/Permission")`: the `Permission`
children of the `Permissions` children, in document order. -/
def findPermissions (user : Node) : List Node :=
  (user.children.filter (Node.isElement "Permissions")).flatMap fun ps =>
    ps.children.filter (Node.isElement "Permission")

/-! ## Library functions on strings and bytes -/

/-- Go `len(s)` of a string: its size in bytes. -/
def len (s : String) : Nat := s.utf8ByteSize

/-- Go `[]byte(s)`: the UTF-8 bytes of a string. -/
def bytesOf (s : String) : List UInt8 := s.data.flatMap String.utf8EncodeChar

/-- Go `a < b` on strings. Go compares bytes; on UTF-8 text that is the order
of the code points, which is the lexicographic order used here. -/
def stringLess (a b : String) : Bool := decide (a.data < b.data)

/-- Model of `strings.ToUpper`: `a`..`z` are mapped to `A`..`Z`. Go also maps
letters outside ASCII; none of them is mapped to a digit or to a letter `A`..`F`,
so on the one use in the source, an equality test against an upper-cased
hexadecimal string, the two give the same answer. -/
def ToUpper (s : String) : String := String.mk (s.data.map Char.toUpper)

def hextable : List Char := "0123456789abcdef".data

/-- Model of `hex.EncodeToString`: two lower-case digits per byte. -/
def EncodeToString (bs : List UInt8) : String :=
  String.mk (bs.flatMap fun b =>
    [hextable.getD (b.toNat / 16) '0', hextable.getD (b.toNat % 16) '0'])

/-- Go slice indexing `xs[i]`: a run-time panic outside `0 ≤ i < len(xs)`. -/
def index {α : Type} (xs : List α) (i : Int) : Outcome α :=
  if i < 0 then .panic "index out of range"
  else
    match xs.get? i.toNat with
    | some x => .ret x
    | none => .panic "index out of range"

/-- Model of `sort.SliceStable(xs, less)`: a stable sort by insertion; an
element is placed before the first sorted element that is not less than it. -/
def insertStable {α : Type} (less : α → α → Bool) (x : α) : List α → List α
  | [] => [x]
  | y :: ys => if less y x then y :: insertStable less x ys else x :: y :: ys

def SliceStable {α : Type} (less : α → α → Bool) : List α → List α
  | [] => []
  | x :: xs => insertStable less x (SliceStable less xs)

/-! ## Digests (`crypto/md5` per RFC 1321, `crypto/sha512` per FIPS 180-4) -/

/-- Left rotation of a 32-bit word. -/
def rotl32 (x n : Nat) : Nat := ((x <<< n) ||| (x >>> (32 - n))) % 2 ^ 32

/-- Right rotation of a 64-bit word. -/
def rotr64 (x n : Nat) : Nat := ((x >>> n) ||| (x <<< (64 - n))) % 2 ^ 64

/-- The `n` low bytes of `x`, least significant first. -/
def bytesLE : Nat → Nat → List Nat
  | 0, _ => []
  | n + 1, x => x % 256 :: bytesLE n (x / 256)

/-- The `n` low bytes of `x`, most significant first. -/
def bytesBE (n x : Nat) : List Nat := (bytesLE n x).reverse

/-- Value of a little-endian byte string. -/
def fromLE : List Nat → Nat
  | [] => 0
  | b :: bs => b + 256 * fromLE bs

/-- Value of a big-endian byte string. -/
def fromBE (bs : List Nat) : Nat := fromLE bs.reverse

/-- Cuts a list into at most `fuel` consecutive pieces of `n + 1` elements. -/
def chunks (n : Nat) : Nat → List Nat → List (List Nat)
  | 0, _ => []
  | fuel + 1, l => if l = [] then [] else l.take (n + 1) :: chunks n fuel (l.drop (n + 1))

def md5K : List Nat := [
  0xd76aa478, 0xe8c7b756, 0x242070db, 0xc1bdceee, 0xf57c0faf, 0x4787c62a, 0xa8304613, 0xfd469501,
  0x698098d8, 0x8b44f7af, 0xffff5bb1, 0x895cd7be, 0x6b901122, 0xfd987193, 0xa679438e, 0x49b40821,
  0xf61e2562, 0xc040b340, 0x265e5a51, 0xe9b6c7aa, 0xd62f105d, 0x02441453, 0xd8a1e681, 0xe7d3fbc8,
  0x21e1cde6, 0xc33707d6, 0xf4d50d87, 0x455a14ed, 0xa9e3e905, 0xfcefa3f8, 0x676f02d9, 0x8d2a4c8a,
  0xfffa3942, 0x8771f681, 0x6d9d6122, 0xfde5380c, 0xa4beea44, 0x4bdecfa9, 0xf6bb4b60, 0xbebfbc70,
  0x289b7ec6, 0xeaa127fa, 0xd4ef3085, 0x04881d05, 0xd9d4d039, 0xe6db99e5, 0x1fa27cf8, 0xc4ac5665,
  0xf4292244, 0x432aff97, 0xab9423a7, 0xfc93a039, 0x655b59c3, 0x8f0ccc92, 0xffeff47d, 0x85845dd1,
  0x6fa87e4f, 0xfe2ce6e0, 0xa3014314, 0x4e0811a1, 0xf7537e82, 0xbd3af235, 0x2ad7d2bb, 0xeb86d391]

def md5S : List Nat := [
  7, 12, 17, 22, 7, 12, 17, 22, 7, 12, 17, 22, 7, 12, 17, 22,
  5, 9, 14, 20, 5, 9, 14, 20, 5, 9, 14, 20, 5, 9, 14, 20,
  4, 11, 16, 23, 4, 11, 16, 23, 4, 11, 16, 23, 4, 11, 16, 23,
  6, 10, 15, 21, 6, 10, 15, 21, 6, 10, 15, 21, 6, 10, 15, 21]

structure MD5State where
  a : Nat
  b : Nat
  c : Nat
  d : Nat

def md5Init : MD5State := ⟨0x67452301, 0xefcdab89, 0x98badcfe, 0x10325476⟩

/-- Operation `i` of the 64 operations on a block of 16 words `m`. -/
def md5Step (m : List Nat) (s : MD5State) (i : Nat) : MD5State :=
  let not32 := fun x : Nat => 0xffffffff ^^^ x
  let f :=
    if i < 16 then (s.b &&& s.c) ||| (not32 s.b &&& s.d)
    else if i < 32 then (s.d &&& s.b) ||| (not32 s.d &&& s.c)
    else if i < 48 then s.b ^^^ s.c ^^^ s.d
    else s.c ^^^ (s.b ||| not32 s.d)
  let g :=
    if i < 16 then i
    else if i < 32 then (5 * i + 1) % 16
    else if i < 48 then (3 * i + 5) % 16
    else (7 * i) % 16
  let t := (f + s.a + md5K.getD i 0 + m.getD g 0) % 2 ^ 32
  ⟨s.d, (s.b + rotl32 t (md5S.getD i 0)) % 2 ^ 32, s.b, s.c⟩

def md5Block (s : MD5State) (block : List Nat) : MD5State :=
  let m := (chunks 3 16 block).map fromLE
  let r := (List.range 64).foldl (md5Step m) s
  ⟨(s.a + r.a) % 2 ^ 32, (s.b + r.b) % 2 ^ 32, (s.c + r.c) % 2 ^ 32, (s.d + r.d) % 2 ^ 32⟩

/-- Padding: a one bit, zeros up to 56 modulo 64, the bit length on 8 bytes. -/
def md5Pad (msg : List Nat) : List Nat :=
  msg ++ 0x80 :: List.replicate ((119 - msg.length % 64) % 64) 0
    ++ bytesLE 8 (8 * msg.length)

def md5Output (s : MD5State) : List UInt8 :=
  (bytesLE 4 s.a ++ bytesLE 4 s.b ++ bytesLE 4 s.c ++ bytesLE 4 s.d).map UInt8.ofNat

/-- The 128-bit digest of a byte string (`md5.New`, `Write`, `Sum(nil)`). -/
def md5Sum (msg : List UInt8) : List UInt8 :=
  let p := md5Pad (msg.map UInt8.toNat)
  md5Output ((chunks 63 (p.length / 64) p).foldl md5Block md5Init)

/-- Integer root by bisection on `bits` bits: the largest `r` below `2 ^ bits`
with `r ^ k ≤ n`. -/
def iroot (k bits n : Nat) : Nat :=
  (List.range bits).foldl
    (fun r j => if (r + 2 ^ (bits - 1 - j)) ^ k ≤ n then r + 2 ^ (bits - 1 - j) else r) 0

/-- The first eighty primes. -/
def sha512Primes : List Nat := [
  2, 3, 5, 7, 11, 13, 17, 19, 23, 29, 31, 37, 41, 43, 47, 53, 59, 61, 67, 71,
  73, 79, 83, 89, 97, 101, 103, 107, 109, 113, 127, 131, 137, 139, 149, 151, 157, 163, 167, 173,
  179, 181, 191, 193, 197, 199, 211, 223, 227, 229, 233, 239, 241, 251, 257, 263, 269, 271, 277,
  281, 283, 293, 307, 311, 313, 317, 331, 337, 347, 349, 353, 359, 367, 373, 379, 383, 389, 397,
  401, 409]

/-- Round constants: the first 64 bits of the fractional parts of the cube
roots of the first eighty primes. -/
def sha512K : List Nat := sha512Primes.map fun q => iroot 3 68 (q * 2 ^ 192) % 2 ^ 64

structure SHA512State where
  a : Nat
  b : Nat
  c : Nat
  d : Nat
  e : Nat
  f : Nat
  g : Nat
  h : Nat

/-- Initial state: the first 64 bits of the fractional parts of the square
roots of the first eight primes. -/
def sha512Init : SHA512State :=
  let h := fun q : Nat => iroot 2 68 (q * 2 ^ 128) % 2 ^ 64
  ⟨h 2, h 3, h 5, h 7, h 11, h 13, h 17, h 19⟩

/-- One step of the message schedule; `r` holds the words so far, newest first. -/
def sha512Extend (r : List Nat) (_ : Nat) : List Nat :=
  let w2 := r.getD 1 0
  let w7 := r.getD 6 0
  let w15 := r.getD 14 0
  let w16 := r.getD 15 0
  let s0 := rotr64 w15 1 ^^^ rotr64 w15 8 ^^^ (w15 >>> 7)
  let s1 := rotr64 w2 19 ^^^ rotr64 w2 61 ^^^ (w2 >>> 6)
  ((w16 + s0 + w7 + s1) % 2 ^ 64) :: r

/-- Round `i` of the 80 rounds on the schedule `w`. -/
def sha512Round (w : List Nat) (s : SHA512State) (i : Nat) : SHA512State :=
  let not64 := fun x : Nat => 0xffffffffffffffff ^^^ x
  let s1 := rotr64 s.e 14 ^^^ rotr64 s.e 18 ^^^ rotr64 s.e 41
  let ch := (s.e &&& s.f) ^^^ (not64 s.e &&& s.g)
  let t1 := (s.h + s1 + ch + sha512K.getD i 0 + w.getD i 0) % 2 ^ 64
  let s0 := rotr64 s.a 28 ^^^ rotr64 s.a 34 ^^^ rotr64 s.a 39
  let maj := (s.a &&& s.b) ^^^ (s.a &&& s.c) ^^^ (s.b &&& s.c)
  let t2 := (s0 + maj) % 2 ^ 64
  ⟨(t1 + t2) % 2 ^ 64, s.a, s.b, s.c, (s.d + t1) % 2 ^ 64, s.e, s.f, s.g⟩

def sha512Block (s : SHA512State) (block : List Nat) : SHA512State :=
  let w16 := (chunks 7 16 block).map fromBE
  let w := ((List.range 64).foldl sha512Extend w16.reverse).reverse
  let r := (List.range 80).foldl (sha512Round w) s
  ⟨(s.a + r.a) % 2 ^ 64, (s.b + r.b) % 2 ^ 64, (s.c + r.c) % 2 ^ 64, (s.d + r.d) % 2 ^ 64,
   (s.e + r.e) % 2 ^ 64, (s.f + r.f) % 2 ^ 64, (s.g + r.g) % 2 ^ 64, (s.h + r.h) % 2 ^ 64⟩

/-- Padding: a one bit, zeros up to 112 modulo 128, the bit length on 16 bytes. -/
def sha512Pad (msg : List Nat) : List Nat :=
  msg ++ 0x80 :: List.replicate ((239 - msg.length % 128) % 128) 0
    ++ bytesBE 16 (8 * msg.length)

def sha512Output (s : SHA512State) : List UInt8 :=
  (bytesBE 8 s.a ++ bytesBE 8 s.b ++ bytesBE 8 s.c ++ bytesBE 8 s.d
    ++ bytesBE 8 s.e ++ bytesBE 8 s.f ++ bytesBE 8 s.g ++ bytesBE 8 s.h).map UInt8.ofNat

/-- The 512-bit digest of a byte string (`sha512.New`, `Write`, `Sum(nil)`). -/
def sha512Sum (msg : List UInt8) : List UInt8 :=
  let p := sha512Pad (msg.map UInt8.toNat)
  sha512Output ((chunks 127 (p.length / 128) p).foldl sha512Block sha512Init)

/-! ## The configuration reader (`filezilla_configuration.go`) -/

/-- What the code reads from outside: the file system and the path engine. -/
structure Env where
  /-- The calls `os.Open(path)` then `xmlquery.Parse(f)`: the parsed document,
  or the error of whichever call failed. -/
  parse : String → Except Error Document
  /-- Answer of `xmlquery.FindOne` to the user query when the spliced name
  breaks out of the string literal in a way this embedding does not interpret
  (see `getUserNode`). Theorems hold for every value of this field. -/
  spliced : Document → String → Outcome (Option Node)

structure FilezillaConfiguration where
  filezillaConfigFilePath : String
deriving DecidableEq, Repr

structure FilezillaUser where
  id : Int
  name : String
  home : String
  enabled : Bool
deriving DecidableEq, Repr

def NewFilezillaConfiguration (filezillaConfigFilePath : String) : FilezillaConfiguration :=
  ⟨filezillaConfigFilePath⟩

/-- The loop of `getHomeDirectoryInternal` over the permission entries. -/
def getHomeDirectoryRange : List Node → String × Option Error
  | [] => ("", some (Error.new "Cannot find home directory"))
  | n :: ns =>
    match findOption n "IsHome" with
    | some isHomeNode =>
      if isHomeNode.InnerText = "1" then (n.SelectAttr "Dir", none) else getHomeDirectoryRange ns
    | none => getHomeDirectoryRange ns

def getHomeDirectoryInternal (user : Node) : String × Option Error :=
  getHomeDirectoryRange (findPermissions user)

/-- The function `getUserInternal`; the argument is a node pointer, `none` is nil. -/
def getUserInternal (user : Option Node) : FilezillaUser × Option Error :=
  match user with
  | none => (⟨-1, "", "", false⟩, some (Error.new "Invalid argument: user"))
  | some user =>
    let isEnabled := findOption user "Enabled"
    match getHomeDirectoryInternal user with
    | (_, some err) => (⟨0, "", "", false⟩, some err)
    | (homeDir, none) =>
      (⟨0, user.SelectAttr "Name",
        homeDir,
        match isEnabled with
        | none => true
        | some e => decide (e.InnerText = "1")⟩, none)

/-- The loop of `getUsers` over the `User` nodes, from index `i` on. -/
def getUsersRange : Nat → List Node → List FilezillaUser
  | _, [] => []
  | i, n :: ns =>
    match getUserInternal (some n) with
    | (_, some _) => getUsersRange (i + 1) ns
    | (user, none) => { user with id := (i : Int) } :: getUsersRange (i + 1) ns

namespace FilezillaConfiguration

def getUsers (p : FilezillaConfiguration) (env : Env) : List FilezillaUser × Option Error :=
  match env.parse p.filezillaConfigFilePath with
  | .error err => ([], some err)
  | .ok doc => (getUsersRange 0 (findUsers doc), none)

/-- The function `getUserNode`. The error of `os.Open` is dropped and a failed
parse panics. The query is `//User[@Name="` followed by the user name followed
by `"]`, the name being spliced unescaped:
* a name without a double quote stays inside the string literal, and the
  query selects the first `User` element whose attribute `Name` is the name;
* a name whose last character is its only double quote closes the literal
  itself, so that the closing quote of the query opens a second literal, read
  by the scanner right after the first and never closed: `FindOne` panics;
* for the other names with a double quote (the quote is followed by more text
  of the name, which the path parser may or may not read) the answer is the
  field `spliced` of the environment. -/
def getUserNode (p : FilezillaConfiguration) (env : Env) (username : String) :
    Outcome (Option Node) :=
  match env.parse p.filezillaConfigFilePath with
  | .error _ => .panic "panic(err)"
  | .ok doc =>
    if username.data.count (Char.ofNat 34) = 0 then
      .ret ((findUsers doc).find? fun n => n.attr? "Name" == some username)
    else if username.data.count (Char.ofNat 34) = 1 ∧
        username.data.getLast? = some (Char.ofNat 34) then
      .panic "xpath: unclosed string"
    else env.spliced doc username

/-- Lines 85 to 90: the salt is the inner text of the node, nil giving the
empty string. -/
def saltOf (salt_node : Option Node) : String :=
  match salt_node with
  | none => ""
  | some n => if n.InnerText = "" then "" else n.InnerText

/-- Lines 92 to 106: the digest is chosen by the length of the stored hash. -/
def computedHash (password : List UInt8) (salt passHash : String) : String :=
  if len passHash = 32 then
    EncodeToString (md5Sum (password ++ bytesOf salt))
  else
    EncodeToString (sha512Sum (password ++ bytesOf salt))

/-- Lines 85 to 108: the hash verification, from the stored hash and the salt node. -/
def verify (password : List UInt8) (passHash : String) (salt_node : Option Node) : Bool :=
  decide (ToUpper (computedHash password (saltOf salt_node) passHash) = ToUpper passHash)

def validateUserAndPass (p : FilezillaConfiguration) (env : Env) (username : String)
    (password : List UInt8) : Outcome Bool :=
  match p.getUserNode env username with
  | .panic r => .panic r
  | .ret none => .ret false
  | .ret (some user) =>
    match findOption user "Pass" with
    | none => .panic "invalid memory address or nil pointer dereference"
    | some passNode => .ret (verify password passNode.InnerText (findOption user "Salt"))

def getUser (p : FilezillaConfiguration) (env : Env) (username : String) :
    FilezillaUser × Option Error :=
  match p.getUsers env with
  | (_, some _) =>
    (⟨-1, "", "", false⟩,
      some (Error.new ("Cannot get user list%!(EXTRA string=" ++ username ++ ")")))
  | (users, none) =>
    match users.find? fun user => user.name == username with
    | some user => (user, none)
    | none => (⟨-1, "", "", false⟩, some (Error.new ("No such user: " ++ username)))

end FilezillaConfiguration

/-! ## The provider (`filezilla.go`) -/

/-- Modelled from the spec: the constant `PermAny` of the package, declared
outside the files at hand; the single "any" capability, written `*`. -/
def PermAny : String := "*"

/-- The fields of the package type `User` that the provider assigns; the other
fields of the type are never written by it and keep their zero value. -/
structure User where
  ID : Int
  Status : Int
  Username : String
  Password : String
  HomeDir : String
  Permissions : List String
deriving DecidableEq, Repr

/-- The zero value `User{}`. -/
def User.zero : User := ⟨0, 0, "", "", "", []⟩

structure FilezillaProviderHandle where
  isClosed : Bool
  filezilla : FilezillaConfiguration
deriving DecidableEq, Repr

structure FilezillaProvider where
  dbHandle : FilezillaProviderHandle
deriving DecidableEq, Repr

/-- The provider installed by `initializeFilezillaProvider` for `config.Name`. -/
def initializeFilezillaProvider (configName : String) : FilezillaProvider :=
  ⟨⟨false, NewFilezillaConfiguration configName⟩⟩

/-- The loop of the provider `getUsers`: `i` is the index of the head of the
list, `users` the slice built so far. -/
def getUsersWindow (toUser : FilezillaUser → User) (limit offset : Int) :
    Nat → List FilezillaUser → List User → List User
  | _, [], users => users
  | i, fzUser :: rest, users =>
    if (i : Int) ≤ offset then getUsersWindow toUser limit offset (i + 1) rest users
    else
      let users := users ++ [toUser fzUser]
      if (users.length : Int) ≥ limit then users
      else getUsersWindow toUser limit offset (i + 1) rest users

namespace FilezillaProvider

def filezillaUserToUser (_ : FilezillaProvider) (fzUser : FilezillaUser) : User :=
  { ID := fzUser.id
    Username := fzUser.name
    HomeDir := fzUser.home
    Password := ""
    Permissions := [PermAny]
    Status := if fzUser.enabled then 1 else 0 }

def checkAvailability (p : FilezillaProvider) : Option Error :=
  if p.dbHandle.isClosed then some errFilezillaProviderClosed else none

/-- The method `close`; the handle is shared through a pointer, so the provider
after the call is returned with the error. -/
def close (p : FilezillaProvider) : FilezillaProvider × Option Error :=
  if p.dbHandle.isClosed then (p, some errFilezillaProviderClosed)
  else (⟨{ p.dbHandle with isClosed := true }⟩, none)

def userExists (p : FilezillaProvider) (env : Env) (username : String) : User × Option Error :=
  if p.dbHandle.isClosed then (User.zero, some errFilezillaProviderClosed)
  else
    match p.dbHandle.filezilla.getUser env username with
    | (_, some err) => (User.zero, some err)
    | (fzUser, none) =>
      if fzUser.id < 0 then (User.zero, some (Error.new "No such user"))
      else (p.filezillaUserToUser fzUser, none)

def validateUserAndPass (p : FilezillaProvider) (env : Env) (username : String)
    (password : List UInt8) : Outcome (User × Option Error) :=
  if password.length = 0 then
    .ret (User.zero, some (Error.new "Credentials cannot be null or empty"))
  else
    match p.userExists env username with
    | (user, some err) => .ret (user, some err)
    | (user, none) =>
      match p.dbHandle.filezilla.validateUserAndPass env username password with
      | .panic r => .panic r
      | .ret true => .ret (user, none)
      | .ret false => .ret (User.zero, some (Error.new "Invalid password"))

def validateUserAndPubKey (_ : FilezillaProvider) (_username _pubKey : String) :
    User × String × Option Error :=
  (User.zero, "", some errFilezillaUnsupportsThisFeature)

def getUserByID (p : FilezillaProvider) (env : Env) (ID : Int) : Outcome (User × Option Error) :=
  if p.dbHandle.isClosed then .ret (User.zero, some errFilezillaProviderClosed)
  else
    match p.dbHandle.filezilla.getUsers env with
    | (_, some err) => .ret (User.zero, some err)
    | (fzUsers, none) =>
      if ID < (fzUsers.length : Int) then
        match index fzUsers ID with
        | .panic r => .panic r
        | .ret fzUser => .ret (p.filezillaUserToUser fzUser, none)
      else
        .ret (User.zero,
          some (Error.RecordNotFoundError ("user with ID " ++ toString ID ++ " does not exist")))

def updateLastLogin (_ : FilezillaProvider) (_username : String) : Option Error := none

def updateQuota (_ : FilezillaProvider) (_username : String) (_filesAdd : Int) (_sizeAdd : Int)
    (_reset : Bool) : Option Error :=
  some errFilezillaUnsupportsThisFeature

def getUsedQuota (_ : FilezillaProvider) (_username : String) : Int × Int × Option Error :=
  (0, 0, none)

def addUser (_ : FilezillaProvider) (_user : User) : Option Error :=
  some errFilezillaUnsupportsThisFeature

def updateUser (_ : FilezillaProvider) (_user : User) : Option Error :=
  some errFilezillaUnsupportsThisFeature

def deleteUser (_ : FilezillaProvider) (_user : User) : Option Error :=
  some errFilezillaUnsupportsThisFeature

def getUsers (p : FilezillaProvider) (env : Env) (limit offset : Int) (order : String)
    (_username : String) : List User × Option Error :=
  match p.dbHandle.filezilla.getUsers env with
  | (_, some err) => ([], some err)
  | (fzUsers, none) =>
    let fzUsers :=
      if order = "ASC" then SliceStable (fun a b => stringLess a.name b.name) fzUsers
      else SliceStable (fun a b => stringLess b.name a.name) fzUsers
    (getUsersWindow p.filezillaUserToUser limit offset 0 fzUsers [], none)

def getNextID (p : FilezillaProvider) (env : Env) : Int :=
  match p.dbHandle.filezilla.getUsers env with
  | (_, some _) => -1
  | (fzUsers, none) => (fzUsers.length : Int)

end FilezillaProvider

/-! ## Specification-side notions -/

/-- Spec-side reading of "stably sorted by username": `s` is a rearrangement of
`l`, in ascending (`asc`) or descending order of names, in which users of the
same name keep the order they have in `l`. -/
def IsStableSortByName (asc : Bool) (l s : List FilezillaUser) : Prop :=
  s.Perm l ∧
  s.Pairwise (fun a b => if asc then a.name ≤ b.name else b.name ≤ a.name) ∧
  ∀ k : String, s.filter (fun a => a.name == k) = l.filter (fun a => a.name == k)

/-- Spec-side reading of "canonical user of a foreign record": `u` has the
ordinal of a `User` element of the document as ID, the name, home directory and
enabled flag of the record read from that element, an empty password and the
single "any" permission. -/
def IsCanonicalUser (doc : Document) (u : User) : Prop :=
  ∃ (i : Nat) (n : Node) (fz : FilezillaUser),
    (findUsers doc)[i]? = some n ∧ getUserInternal (some n) = (fz, none) ∧
    u.ID = (i : Int) ∧ u.Username = fz.name ∧ u.HomeDir = fz.home ∧
    u.Status = (if fz.enabled then 1 else 0) ∧ u.Password = "" ∧ u.Permissions = [PermAny]

/-! ## Sample configurations -/

/-- A `User` element with the given name, options (name and text) and
permission entries (directory and text of the `IsHome` option). -/
def sampleUser (nm : String) (opts : List (String × String)) (perms : List (String × String)) :
    Node :=
  .element "User" [("Name", nm)]
    (opts.map (fun o => Node.element "Option" [("Name", o.1)] [.text o.2]) ++
     [.element "Permissions" []
        (perms.map fun q => Node.element "Permission" [("Dir", q.1)]
          [.element "Option" [("Name", "IsHome")] [.text q.2]])])

/-- A server configuration holding the given `User` elements. -/
def sampleDocument (users : List Node) : Document :=
  ⟨[.element "FileZillaServer" [] [.element "Settings" [] [], .element "Users" [] users]]⟩

/-- The scenario of the specification: alice, enabled, home `/data/alice`,
password hash MD5 of `secret`, no salt. -/
def aliceDocument : Document :=
  sampleDocument [sampleUser "alice"
    [("Pass", "5ebe2294ecd0e0f08eab7690d2a6ee69"), ("Enabled", "1")]
    [("/data/alice", "1")]]

/-- The scenario of the specification: bob, carol, dave in that order. -/
def listingDocument : Document :=
  sampleDocument [
    sampleUser "bob" [] [("/data/bob", "1")],
    sampleUser "carol" [("Enabled", "0")] [("/srv", "0"), ("/data/carol", "1")],
    sampleUser "dave" [("Pass", "5ebe2294ecd0e0f08eab7690d2a6ee69")] [("/data/dave", "1")]]

/-- A configuration whose first user, erin, has no home directory. -/
def homelessDocument : Document :=
  sampleDocument [
    sampleUser "erin" [("Pass", "5ebe2294ecd0e0f08eab7690d2a6ee69")] [("/data/erin", "0")],
    sampleUser "frank" [] [("/data/frank", "1")]]

/-- A configuration with a user whose name holds a double quote. -/
def quoteDocument : Document :=
  sampleDocument [sampleUser (String.mk ['a', Char.ofNat 34])
    [("Pass", "5ebe2294ecd0e0f08eab7690d2a6ee69")] [("/data/a", "1")]]

/-- Sample environment: four readable configurations, every other path fails. -/
def sampleEnv : Env where
  parse := fun path =>
    if path = "alice.xml" then .ok aliceDocument
    else if path = "listing.xml" then .ok listingDocument
    else if path = "homeless.xml" then .ok homelessDocument
    else if path = "quote.xml" then .ok quoteDocument
    else .error (.file "open: no such file or directory")
  spliced := fun _ _ => .panic "not interpreted"

/-- A configuration whose first user, erin, has no home directory, followed by
two users with one: frank and grace. -/
def shiftedDocument : Document :=
  sampleDocument [
    sampleUser "erin" [] [("/data/erin", "0")],
    sampleUser "frank" [] [("/data/frank", "1")],
    sampleUser "grace" [] [("/data/grace", "1")]]

/-- A configuration with two `User` elements named gina: the first has no home
directory and the password hash MD5 of `secret`, the second has a home
directory and the password hash MD5 of `wrong`. -/
def twinDocument : Document :=
  sampleDocument [
    sampleUser "gina" [("Pass", "5ebe2294ecd0e0f08eab7690d2a6ee69")] [("/data/old", "0")],
    sampleUser "gina" [("Pass", "2bda2998d9b0ee197da142a0447f6725")] [("/data/gina", "1")]]

/-- Second sample environment: two readable configurations. -/
def secondEnv : Env where
  parse := fun path =>
    if path = "shifted.xml" then .ok shiftedDocument
    else if path = "twin.xml" then .ok twinDocument
    else .error (.file "open: no such file or directory")
  spliced := fun _ _ => .panic "not interpreted"

/-! ## The provider as a state machine -/

/-- A call of one operation of the provider contract, with its arguments. -/
inductive Op where
  | checkAvailability
  | close
  | validateUserAndPass (username : String) (password : List UInt8)
  | validateUserAndPubKey (username pubKey : String)
  | getUserByID (ID : Int)
  | updateLastLogin (username : String)
  | updateQuota (username : String) (filesAdd sizeAdd : Int) (reset : Bool)
  | getUsedQuota (username : String)
  | addUser (user : User)
  | updateUser (user : User)
  | deleteUser (user : User)
  | getUsers (limit offset : Int) (order username : String)
  | userExists (username : String)
  | getNextID

/-- The handle after a call. The one assignment to a field of the handle in
`filezilla.go` is `p.dbHandle.isClosed = true` in `close` (line 71); the other
methods only read the handle, so a call of them, whether it returns or panics,
leaves the handle as it was. -/
def Op.after (p : FilezillaProvider) : Op → FilezillaProvider
  | .close => p.close.1
  | _ => p

/-- The handle after a sequence of calls. -/
def runOps (p : FilezillaProvider) (ops : List Op) : FilezillaProvider :=
  ops.foldl Op.after p

/-- Spec-side reading of "entry whose IsHome option text is exactly 1": the
entry has an `IsHome` option (the first one, should there be several) and the
inner text of that option is `1`. -/
def IsHomeEntry (e : Node) : Bool :=
  match findOption e "IsHome" with
  | some o => decide (o.InnerText = "1")
  | none => false

end Dataprovider

namespace Dataprovider

open FilezillaProvider

/-! ## C1: operations on a closed provider -/

/-- C1, as stated, fails: after a successful `close`, `updateLastLogin` still
returns no error, `getUsedQuota` still returns `(0, 0, nil)` and `addUser` the
unsupported-feature error, none of them the closed-provider error. -/
theorem closed_provider_counterexample :
    ((initializeFilezillaProvider "listing.xml").close).2 = none ∧
    ((initializeFilezillaProvider "listing.xml").close).1.updateLastLogin "bob"
      ≠ some errFilezillaProviderClosed ∧
    (((initializeFilezillaProvider "listing.xml").close).1.getUsedQuota "bob").2.2
      ≠ some errFilezillaProviderClosed ∧
    ((initializeFilezillaProvider "listing.xml").close).1.addUser User.zero
      ≠ some errFilezillaProviderClosed := by
  decide

/-- C1, amended: once `close` has succeeded, `checkAvailability`, `getUserByID`,
`userExists`, `validateUserAndPass` with a non-empty password and a second
`close` return the closed-provider error, for every argument and every
configuration; `validateUserAndPass` with an empty password returns the
empty-credential error; the operations without a state check keep their fixed
results. -/
theorem closed_provider_operations (p : FilezillaProvider) (env : Env)
    (hclose : p.close.2 = none) :
    p.close.1.checkAvailability = some errFilezillaProviderClosed ∧
    (∀ ID, p.close.1.getUserByID env ID = .ret (User.zero, some errFilezillaProviderClosed)) ∧
    (∀ username, p.close.1.userExists env username
      = (User.zero, some errFilezillaProviderClosed)) ∧
    (∀ username password, password ≠ [] →
      p.close.1.validateUserAndPass env username password
        = .ret (User.zero, some errFilezillaProviderClosed)) ∧
    (∀ username, p.close.1.validateUserAndPass env username []
      = .ret (User.zero, some (Error.new "Credentials cannot be null or empty"))) ∧
    p.close.1.close = (p.close.1, some errFilezillaProviderClosed) ∧
    (∀ username pubKey, p.close.1.validateUserAndPubKey username pubKey
      = (User.zero, "", some errFilezillaUnsupportsThisFeature)) ∧
    (∀ username, p.close.1.updateLastLogin username = none) ∧
    (∀ username filesAdd sizeAdd reset, p.close.1.updateQuota username filesAdd sizeAdd reset
      = some errFilezillaUnsupportsThisFeature) ∧
    (∀ username, p.close.1.getUsedQuota username = (0, 0, none)) ∧
    (∀ user, p.close.1.addUser user = some errFilezillaUnsupportsThisFeature) ∧
    (∀ user, p.close.1.updateUser user = some errFilezillaUnsupportsThisFeature) ∧
    (∀ user, p.close.1.deleteUser user = some errFilezillaUnsupportsThisFeature) := by
  have hopen : p.dbHandle.isClosed = false := by
    cases h : p.dbHandle.isClosed
    · rfl
    · simp [close, h] at hclose
  have hq : p.close.1.dbHandle.isClosed = true := by simp [close, hopen]
  refine ⟨?_, ?_, ?_, ?_, ?_, ?_, ?_, ?_, ?_, ?_, ?_, ?_, ?_⟩
  · simp [checkAvailability, hq]
  · intro ID; simp [getUserByID, hq]
  · intro username; simp [userExists, hq]
  · intro username password hpw
    have hlen : password.length ≠ 0 := by
      intro h0; exact hpw (List.length_eq_zero.mp h0)
    simp [validateUserAndPass, userExists, hq, hlen]
  · intro username; simp [validateUserAndPass]
  · revert hq
    generalize p.close.1 = q
    intro hq
    simp [close, hq]
  · intro _ _; rfl
  · intro _; rfl
  · intro _ _ _ _; rfl
  · intro _; rfl
  · intro _; rfl
  · intro _; rfl
  · intro _; rfl

/-- Witness of `closed_provider_operations` on the sample listing. -/
theorem closed_provider_operations_witness :
    (initializeFilezillaProvider "listing.xml").close.2 = none ∧
    (initializeFilezillaProvider "listing.xml").close.1.checkAvailability
      = some errFilezillaProviderClosed :=
  ⟨by decide,
   (closed_provider_operations (initializeFilezillaProvider "listing.xml") sampleEnv
     (by decide)).1⟩

/-! ## C3, C4: the hash verification -/

open FilezillaConfiguration


theorem hextable_getD_ascii : ∀ n, n < 16 → (hextable.getD n '0').utf8Size = 1 := by decide
theorem hextable_getD_upper_ascii : ∀ n, n < 16 → (hextable.getD n '0').toUpper.utf8Size = 1 := by decide
theorem hextable_getD_upper_idem : ∀ n, n < 16 →
    (hextable.getD n '0').toUpper.toUpper = (hextable.getD n '0').toUpper := by decide
theorem hextable_getD_upper_inj : ∀ i, i < 16 → ∀ j, j < 16 →
    (hextable.getD i '0').toUpper = (hextable.getD j '0').toUpper → i = j := by decide

theorem utf8ByteSize_go_of_ascii (l : List Char) (h : ∀ c ∈ l, c.utf8Size = 1) :
    String.utf8ByteSize.go l = l.length := by
  induction l with
  | nil => rfl
  | cons c cs ih =>
    simp only [String.utf8ByteSize.go, List.length_cons]
    rw [ih (fun d hd => h d (List.mem_cons_of_mem _ hd)), h c (List.mem_cons_self _ _)]

theorem len_of_ascii (s : String) (h : ∀ c ∈ s.data, c.utf8Size = 1) : len s = s.data.length := by
  cases s with
  | mk l => exact utf8ByteSize_go_of_ascii l h

theorem uint8_div_lt (b : UInt8) : b.toNat / 16 < 16 := by
  have := b.toNat_lt
  omega

theorem uint8_mod_lt (b : UInt8) : b.toNat % 16 < 16 := Nat.mod_lt _ (by decide)

theorem EncodeToString_length (bs : List UInt8) : (EncodeToString bs).data.length = 2 * bs.length := by
  induction bs with
  | nil => rfl
  | cons b bs ih =>
    simp only [EncodeToString, List.flatMap_cons, List.length_append, List.length_cons, List.length_nil] at ih ⊢
    omega

theorem bytesLE_length (n x : Nat) : (bytesLE n x).length = n := by
  induction n generalizing x with
  | zero => rfl
  | succ n ih => simp [bytesLE, ih]

theorem md5Sum_length (msg : List UInt8) : (md5Sum msg).length = 16 := by
  simp [md5Sum, md5Output, bytesLE_length]

theorem sha512Sum_length (msg : List UInt8) : (sha512Sum msg).length = 64 := by
  simp [sha512Sum, sha512Output, bytesBE, bytesLE_length]


theorem EncodeToString_mem (bs : List UInt8) :
    ∀ c ∈ (EncodeToString bs).data, ∃ n, n < 16 ∧ c = hextable.getD n '0' := by
  intro c hc
  simp only [EncodeToString, List.mem_flatMap, List.mem_cons, List.mem_singleton,
    List.not_mem_nil, or_false] at hc
  obtain ⟨b, _, rfl | rfl⟩ := hc
  · exact ⟨_, uint8_div_lt b, rfl⟩
  · exact ⟨_, uint8_mod_lt b, rfl⟩

theorem ToUpper_data (s : String) : (ToUpper s).data = s.data.map Char.toUpper := rfl

theorem len_EncodeToString (bs : List UInt8) : len (EncodeToString bs) = 2 * bs.length := by
  rw [len_of_ascii, EncodeToString_length]
  intro c hc
  obtain ⟨n, hn, rfl⟩ := EncodeToString_mem bs c hc
  exact hextable_getD_ascii n hn

theorem len_ToUpper_EncodeToString (bs : List UInt8) :
    len (ToUpper (EncodeToString bs)) = 2 * bs.length := by
  rw [len_of_ascii, ToUpper_data, List.length_map, EncodeToString_length]
  intro c hc
  rw [ToUpper_data, List.mem_map] at hc
  obtain ⟨d, hd, rfl⟩ := hc
  obtain ⟨n, hn, rfl⟩ := EncodeToString_mem bs d hd
  exact hextable_getD_upper_ascii n hn

theorem ToUpper_ToUpper_EncodeToString (bs : List UInt8) :
    ToUpper (ToUpper (EncodeToString bs)) = ToUpper (EncodeToString bs) := by
  apply String.ext
  rw [ToUpper_data, ToUpper_data, List.map_map]
  apply List.map_congr_left
  intro d hd
  obtain ⟨n, hn, rfl⟩ := EncodeToString_mem bs d hd
  exact hextable_getD_upper_idem n hn

/-- C3: for every password and every salt node (absent, empty or not), the
verification accepts the hexadecimal encoding, in lower case (as encoded) or in
upper case, of the MD5 digest of the password bytes followed by the salt bytes,
and that of the SHA-512 digest of the same input; a stored hash of 32 bytes
selects MD5 and every other length SHA-512; an absent or empty salt is the
empty byte sequence. -/
theorem verify_accepts_digest (password : List UInt8) (salt_node : Option Node) :
    verify password
      (EncodeToString (md5Sum (password ++ bytesOf (saltOf salt_node)))) salt_node = true ∧
    verify password
      (ToUpper (EncodeToString (md5Sum (password ++ bytesOf (saltOf salt_node))))) salt_node
      = true ∧
    verify password
      (EncodeToString (sha512Sum (password ++ bytesOf (saltOf salt_node)))) salt_node = true ∧
    verify password
      (ToUpper (EncodeToString (sha512Sum (password ++ bytesOf (saltOf salt_node))))) salt_node
      = true ∧
    (∀ salt passHash, len passHash = 32 →
      computedHash password salt passHash = EncodeToString (md5Sum (password ++ bytesOf salt))) ∧
    (∀ salt passHash, len passHash ≠ 32 →
      computedHash password salt passHash
        = EncodeToString (sha512Sum (password ++ bytesOf salt))) ∧
    saltOf none = "" ∧ (∀ n : Node, n.InnerText = "" → saltOf (some n) = "") ∧
    (∀ n : Node, saltOf (some n) = n.InnerText) ∧ bytesOf "" = [] := by
  refine ⟨?_, ?_, ?_, ?_, ?_, ?_, rfl, ?_, ?_, rfl⟩
  · simp [verify, computedHash, len_EncodeToString, md5Sum_length]
  · simp [verify, computedHash, len_ToUpper_EncodeToString, md5Sum_length,
      ToUpper_ToUpper_EncodeToString]
  · simp [verify, computedHash, len_EncodeToString, sha512Sum_length]
  · simp [verify, computedHash, len_ToUpper_EncodeToString, sha512Sum_length,
      ToUpper_ToUpper_EncodeToString]
  · intro salt passHash h; simp [computedHash, h]
  · intro salt passHash h; simp [computedHash, h]
  · intro n h; simp [saltOf, h]
  · intro n
    show (if n.InnerText = "" then "" else n.InnerText) = n.InnerText
    split_ifs with h
    · exact h.symm
    · rfl


/-- Witness of `verify_accepts_digest`: the stored hash of the alice scenario
has 32 bytes, so the MD5 digest is the one computed. -/
theorem verify_accepts_digest_witness :
    len "5ebe2294ecd0e0f08eab7690d2a6ee69" = 32 ∧
    computedHash (bytesOf "secret") "" "5ebe2294ecd0e0f08eab7690d2a6ee69"
      = EncodeToString (md5Sum (bytesOf "secret" ++ bytesOf "")) :=
  ⟨by decide,
   (verify_accepts_digest (bytesOf "secret") none).2.2.2.2.1 ""
     "5ebe2294ecd0e0f08eab7690d2a6ee69" (by decide)⟩

set_option maxRecDepth 1000000 in
/-- Test vectors of the two digests: the MD5 digests of the empty string and of
`secret`, the SHA-512 digest of `abc`. -/
theorem digest_test_vectors :
    EncodeToString (md5Sum (bytesOf "")) = "d41d8cd98f00b204e9800998ecf8427e" ∧
    EncodeToString (md5Sum (bytesOf "secret")) = "5ebe2294ecd0e0f08eab7690d2a6ee69" ∧
    EncodeToString (sha512Sum (bytesOf "abc")) =
      "ddaf35a193617abacc417349ae20413112e6fa4e89a97ea20a9eeee64b55d39a2192992a274fc1a836ba3c23a3feebbd454d4423643ce80e2a9ac94fa54ca49f" := by
  decide

theorem utf8Size_of_toNat_le (d : Char) (h : d.toNat ≤ 122) : d.utf8Size = 1 := by
  have : d.val ≤ 127 := by
    rw [UInt32.le_def]
    show d.val.val ≤ (127 : UInt32).val
    have h2 : d.val.toNat ≤ 122 := h
    rw [Fin.le_def]
    show d.val.toNat ≤ 127
    omega
  simp [Char.utf8Size, this]

/-- A character whose upper-case form is an upper-cased hexadecimal digit is ASCII. -/
theorem utf8Size_of_toUpper_hex (d : Char) (n : Nat) (hn : n < 16)
    (h : d.toUpper = (hextable.getD n '0').toUpper) : d.utf8Size = 1 := by
  by_cases hd : d.toNat ≥ 97 ∧ d.toNat ≤ 122
  · exact utf8Size_of_toNat_le d hd.2
  · have hd2 : d.toUpper = d := by simp only [Char.toUpper]; rw [if_neg hd]
    rw [hd2] at h
    rw [h]
    exact hextable_getD_upper_ascii n hn

theorem verify_eq_true_iff (password : List UInt8) (passHash : String) (salt_node : Option Node) :
    verify password passHash salt_node = true ↔
      ToUpper (computedHash password (saltOf salt_node) passHash) = ToUpper passHash := by
  simp [verify]

theorem computedHash_eq_encode (password : List UInt8) (salt passHash : String) :
    ∃ bs, computedHash password salt passHash = EncodeToString bs := by
  unfold computedHash
  split_ifs
  · exact ⟨_, rfl⟩
  · exact ⟨_, rfl⟩

/-- Characters of a string whose upper-case form is that of a hexadecimal encoding. -/
theorem hex_of_ToUpper_eq (s : String) (bs : List UInt8)
    (h : ToUpper (EncodeToString bs) = ToUpper s) :
    ∀ d ∈ s.data, ∃ n, n < 16 ∧ d.toUpper = (hextable.getD n '0').toUpper := by
  intro d hd
  have h1 : (EncodeToString bs).data.map Char.toUpper = s.data.map Char.toUpper := by
    rw [← ToUpper_data, ← ToUpper_data, h]
  have h2 : d.toUpper ∈ (EncodeToString bs).data.map Char.toUpper := by
    rw [h1]; exact List.mem_map_of_mem _ hd
  rw [List.mem_map] at h2
  obtain ⟨e, he, hed⟩ := h2
  obtain ⟨n, hn, rfl⟩ := EncodeToString_mem bs e he
  exact ⟨n, hn, hed.symm⟩

theorem computedHash_congr (password : List UInt8) (salt h1 h2 : String) (h : len h1 = len h2) :
    computedHash password salt h1 = computedHash password salt h2 := by
  simp [computedHash, h]

theorem ToUpper_EncodeToString_inj (bs cs : List UInt8)
    (h : ToUpper (EncodeToString bs) = ToUpper (EncodeToString cs)) : bs = cs := by
  have h1 : (EncodeToString bs).data.map Char.toUpper = (EncodeToString cs).data.map Char.toUpper := by
    rw [← ToUpper_data, ← ToUpper_data, h]
  clear h
  induction bs generalizing cs with
  | nil =>
    cases cs with
    | nil => rfl
    | cons c cs => simp [EncodeToString] at h1
  | cons b bs ih =>
    cases cs with
    | nil => simp [EncodeToString] at h1
    | cons c cs =>
      simp only [EncodeToString, List.flatMap_cons, List.map_append, List.map_cons, List.map_nil,
        List.cons_append, List.nil_append, List.cons.injEq] at h1
      obtain ⟨hhi, hlo, hrest⟩ := h1
      have e1 := hextable_getD_upper_inj _ (uint8_div_lt b) _ (uint8_div_lt c) hhi
      have e2 := hextable_getD_upper_inj _ (uint8_mod_lt b) _ (uint8_mod_lt c) hlo
      have e3 : b = c := UInt8.ext (by omega)
      rw [e3, ih cs hrest]


theorem ascii_of_verify (password : List UInt8) (passHash : String) (salt_node : Option Node)
    (h : verify password passHash salt_node = true) :
    ∀ d ∈ passHash.data, ∃ n, n < 16 ∧ d.toUpper = (hextable.getD n '0').toUpper := by
  rw [verify_eq_true_iff] at h
  obtain ⟨bs, hbs⟩ := computedHash_eq_encode password (saltOf salt_node) passHash
  rw [hbs] at h
  exact hex_of_ToUpper_eq passHash bs h

/-- Changes to an accepted (password, salt, stored hash), the subject of C4:
replacing one character of the stored hash gives an accepted hash exactly when
the new character has the same upper-case form as the old one (the same letter
in the other case), and a password and salt are accepted against the unchanged
hash exactly when their digest equals the digest of the accepted ones. Whether
two inputs that differ in one byte can have the same digest is left open. -/
theorem verify_single_change (password : List UInt8) (salt_node : Option Node)
    (pre post : List Char) (c : Char)
    (hacc : verify password (String.mk (pre ++ c :: post)) salt_node = true) :
    (∀ c', verify password (String.mk (pre ++ c' :: post)) salt_node = true ↔
      c'.toUpper = c.toUpper) ∧
    (∀ password' salt_node',
      verify password' (String.mk (pre ++ c :: post)) salt_node' = true ↔
        if len (String.mk (pre ++ c :: post)) = 32 then
          md5Sum (password' ++ bytesOf (saltOf salt_node'))
            = md5Sum (password ++ bytesOf (saltOf salt_node))
        else
          sha512Sum (password' ++ bytesOf (saltOf salt_node'))
            = sha512Sum (password ++ bytesOf (saltOf salt_node))) := by
  have hhex := ascii_of_verify _ _ _ hacc
  have hascii : ∀ d ∈ pre ++ c :: post, d.utf8Size = 1 := by
    intro d hd
    obtain ⟨n, hn, hdn⟩ := hhex d hd
    exact utf8Size_of_toUpper_hex d n hn hdn
  have hlen : len (String.mk (pre ++ c :: post)) = (pre ++ c :: post).length :=
    len_of_ascii _ hascii
  have hacc2 := (verify_eq_true_iff _ _ _).mp hacc
  constructor
  · intro c'
    have key : (∀ d ∈ pre ++ c' :: post, d.utf8Size = 1) →
        (verify password (String.mk (pre ++ c' :: post)) salt_node = true ↔
          c'.toUpper = c.toUpper) := by
      intro hascii2
      have hlen2 : len (String.mk (pre ++ c' :: post)) = len (String.mk (pre ++ c :: post)) := by
        rw [hlen, len_of_ascii _ hascii2]; simp
      rw [verify_eq_true_iff, computedHash_congr _ _ _ _ hlen2, hacc2]
      constructor
      · intro h
        have h2 := congrArg String.data h
        simp only [ToUpper_data, List.map_append, List.map_cons] at h2
        have h3 := List.append_cancel_left h2
        simp only [List.cons.injEq] at h3
        exact h3.1.symm
      · intro h
        apply String.ext
        simp only [ToUpper_data, List.map_append, List.map_cons, h]
    constructor
    · intro hv
      have hhex2 := ascii_of_verify _ _ _ hv
      have hascii2 : ∀ d ∈ pre ++ c' :: post, d.utf8Size = 1 := by
        intro d hd
        obtain ⟨n, hn, hdn⟩ := hhex2 d hd
        exact utf8Size_of_toUpper_hex d n hn hdn
      exact (key hascii2).mp hv
    · intro hc
      have hascii2 : ∀ d ∈ pre ++ c' :: post, d.utf8Size = 1 := by
        intro d hd
        simp only [List.mem_append, List.mem_cons] at hd
        rcases hd with hd | rfl | hd
        · exact hascii d (by simp [hd])
        · obtain ⟨n, hn, hdn⟩ := hhex c (by simp)
          exact utf8Size_of_toUpper_hex d n hn (hc.trans hdn)
        · exact hascii d (by simp [hd])
      exact (key hascii2).mpr hc
  · intro password' salt_node'
    rw [verify_eq_true_iff, ← hacc2]
    unfold computedHash
    split_ifs with h32
    · constructor
      · intro h; exact ToUpper_EncodeToString_inj _ _ h
      · intro h; rw [h]
    · constructor
      · intro h; exact ToUpper_EncodeToString_inj _ _ h
      · intro h; rw [h]

set_option maxRecDepth 1000000 in
/-- The stored-hash part of C4 fails: the stored hash of `secret` is accepted,
and so is the hash obtained by changing its second byte from `e` to `E`. -/
theorem verify_case_change_counterexample :
    verify (bytesOf "secret") (String.mk ("5".data ++ 'e' :: "be2294ecd0e0f08eab7690d2a6ee69".data))
      none = true ∧
    verify (bytesOf "secret") (String.mk ("5".data ++ 'E' :: "be2294ecd0e0f08eab7690d2a6ee69".data))
      none = true ∧
    'E' ≠ 'e' := by
  decide

set_option maxRecDepth 1000000 in
/-- The lemma `verify_single_change` at the accepted hash of `secret`, its second
character replaced by `f`. -/
theorem verify_single_change_witness :
    verify (bytesOf "secret") (String.mk ("5".data ++ 'e' :: "be2294ecd0e0f08eab7690d2a6ee69".data))
      none = true ∧
    (verify (bytesOf "secret")
        (String.mk ("5".data ++ 'f' :: "be2294ecd0e0f08eab7690d2a6ee69".data)) none = true ↔
      'f'.toUpper = 'e'.toUpper) :=
  ⟨by decide,
   (verify_single_change (bytesOf "secret") none "5".data "be2294ecd0e0f08eab7690d2a6ee69".data 'e'
     (by decide)).1 'f'⟩

/-! ## C2: credential check -/


/-- Membership in the listing built from index `k` on. -/
theorem mem_getUsersRange (nodes : List Node) (k : Nat) (fz : FilezillaUser) :
    fz ∈ getUsersRange k nodes ↔
      ∃ j n, nodes[j]? = some n ∧ (getUserInternal (some n)).2 = none ∧
        fz = { (getUserInternal (some n)).1 with id := ((k + j : Nat) : Int) } := by
  induction nodes generalizing k with
  | nil => simp [getUsersRange]
  | cons m ms ih =>
    have step : ∀ (P : Nat → Node → Prop),
        (∃ j n, (m :: ms)[j]? = some n ∧ P j n) ↔ (P 0 m ∨ ∃ j n, ms[j]? = some n ∧ P (j + 1) n) := by
      intro P
      constructor
      · rintro ⟨j, n, hj, hp⟩
        cases j with
        | zero => simp at hj; subst hj; exact Or.inl hp
        | succ j => exact Or.inr ⟨j, n, by simpa using hj, hp⟩
      · rintro (hp | ⟨j, n, hj, hp⟩)
        · exact ⟨0, m, by simp, hp⟩
        · exact ⟨j + 1, n, by simpa using hj, hp⟩
    rw [step (fun j n => (getUserInternal (some n)).2 = none ∧
        fz = { (getUserInternal (some n)).1 with id := ((k + j : Nat) : Int) })]
    unfold getUsersRange
    rcases h : getUserInternal (some m) with ⟨user, _ | err⟩
    · simp only [List.mem_cons, ih, true_and, Nat.add_zero]
      apply or_congr Iff.rfl
      constructor
      · rintro ⟨j, n, hj, hn, hfz⟩
        exact ⟨j, n, hj, hn, by rw [hfz]; congr 2; omega⟩
      · rintro ⟨j, n, hj, hn, hfz⟩
        exact ⟨j, n, hj, hn, by rw [hfz]; congr 2; omega⟩
    · simp only [ih, false_and, false_or, reduceCtorEq]
      constructor
      · rintro ⟨j, n, hj, hn, hfz⟩
        exact ⟨j, n, hj, hn, by rw [hfz]; congr 2; omega⟩
      · rintro ⟨j, n, hj, hn, hfz⟩
        exact ⟨j, n, hj, hn, by rw [hfz]; congr 2; omega⟩


theorem getUserInternal_name (n : Node) (h : (getUserInternal (some n)).2 = none) :
    (getUserInternal (some n)).1.name = n.SelectAttr "Name" ∧
    (getUserInternal (some n)).1.home = (getHomeDirectoryInternal n).1 ∧
    (getHomeDirectoryInternal n).2 = none := by
  rcases hh : getHomeDirectoryInternal n with ⟨home, _ | err⟩
  · simp [getUserInternal, hh]
  · simp [getUserInternal, hh] at h

theorem getUserInternal_of_home (n : Node) (h : (getHomeDirectoryInternal n).2 = none) :
    (getUserInternal (some n)).2 = none := by
  rcases hh : getHomeDirectoryInternal n with ⟨home, _ | err⟩
  · simp [getUserInternal, hh]
  · simp [hh] at h

theorem getUserInternal_of_no_home (n : Node) (err : Error)
    (h : (getHomeDirectoryInternal n).2 = some err) :
    (getUserInternal (some n)).2 = some err := by
  rcases hh : getHomeDirectoryInternal n with ⟨home, _ | err2⟩
  · simp [hh] at h
  · simp [hh] at h; simp [getUserInternal, hh, h]

theorem SelectAttr_of_attr (n : Node) (nm v : String) (h : n.attr? nm = some v) :
    n.SelectAttr nm = v := by
  simp [Node.SelectAttr, h]

/-- Lookup by name in the listing, when one node only carries the name. -/
theorem find_getUsersRange (nodes : List Node) (i : Nat) (n : Node) (u : String)
    (hi : nodes[i]? = some n) (hname : n.SelectAttr "Name" = u)
    (hhome : (getHomeDirectoryInternal n).2 = none)
    (huniq : ∀ j m, nodes[j]? = some m → m.SelectAttr "Name" = u → j = i) :
    (getUsersRange 0 nodes).find? (fun user => user.name == u)
      = some { (getUserInternal (some n)).1 with id := (i : Int) } := by
  have hok := getUserInternal_of_home n hhome
  have hmem : ({ (getUserInternal (some n)).1 with id := (i : Int) } : FilezillaUser)
      ∈ getUsersRange 0 nodes := by
    rw [mem_getUsersRange]
    exact ⟨i, n, hi, hok, by simp⟩
  rcases hf : (getUsersRange 0 nodes).find? (fun user => user.name == u) with _ | fz
  · rw [List.find?_eq_none] at hf
    have := hf _ hmem
    simp [(getUserInternal_name n hok).1, hname] at this
  · have h1 := List.find?_some hf
    have h2 := List.mem_of_find?_eq_some hf
    rw [mem_getUsersRange] at h2
    obtain ⟨j, m, hj, hm, rfl⟩ := h2
    simp only [beq_iff_eq] at h1
    rw [(getUserInternal_name m hm).1] at h1
    have hji := huniq j m hj h1
    subst hji
    rw [hi] at hj
    cases hj
    simpa using hf

/-- Lookup of the node by name, when one node only carries the name. -/
theorem find_node_by_name (nodes : List Node) (i : Nat) (n : Node) (u : String)
    (hi : nodes[i]? = some n) (hname : n.attr? "Name" = some u)
    (huniq : ∀ j m, nodes[j]? = some m → m.SelectAttr "Name" = u → j = i) :
    nodes.find? (fun m => m.attr? "Name" == some u) = some n := by
  rcases hf : nodes.find? (fun m => m.attr? "Name" == some u) with _ | m
  · rw [List.find?_eq_none] at hf
    have := hf n (List.getElem?_mem hi)
    simp [hname] at this
  · have h1 := List.find?_some hf
    have h2 := List.mem_of_find?_eq_some hf
    obtain ⟨j, hj⟩ := List.getElem?_of_mem h2
    simp only [beq_iff_eq] at h1
    have hji := huniq j m hj (SelectAttr_of_attr m _ _ h1)
    subst hji
    rw [hi] at hj
    cases hj
    exact hf


/-- Credential check for a name without a double quote: on an open provider,
when the configuration holds one `User` element named `u`, with a home
directory and a `Pass` option, `validateUserAndPass u p` with a non-empty `p`
returns the canonical user and no error exactly when the upper-cased digest of
`p` followed by the salt equals the upper-cased stored hash, and the
`Invalid password` error otherwise. -/
theorem validateUserAndPass_plain_name (p : FilezillaProvider) (env : Env) (doc : Document)
    (i : Nat) (n passNode : Node) (u : String) (password : List UInt8)
    (hopen : p.dbHandle.isClosed = false)
    (hdoc : env.parse p.dbHandle.filezilla.filezillaConfigFilePath = .ok doc)
    (hi : (findUsers doc)[i]? = some n)
    (hname : n.attr? "Name" = some u)
    (huniq : ∀ j m, (findUsers doc)[j]? = some m → m.SelectAttr "Name" = u → j = i)
    (hhome : (getHomeDirectoryInternal n).2 = none)
    (hpass : findOption n "Pass" = some passNode)
    (hquote : u.data.count (Char.ofNat 34) = 0)
    (hpw : password ≠ []) :
    p.validateUserAndPass env u password =
      if ToUpper (computedHash password (saltOf (findOption n "Salt")) passNode.InnerText)
          = ToUpper passNode.InnerText then
        .ret (⟨i, if (getUserInternal (some n)).1.enabled then 1 else 0, u, "",
          (getHomeDirectoryInternal n).1, [PermAny]⟩, none)
      else .ret (User.zero, some (Error.new "Invalid password")) := by
  have hlen : password.length ≠ 0 := fun h0 => hpw (List.length_eq_zero.mp h0)
  have hsel := SelectAttr_of_attr n _ _ hname
  have hok := getUserInternal_of_home n hhome
  have hrec := find_getUsersRange (findUsers doc) i n u hi hsel hhome huniq
  have hnode := find_node_by_name (findUsers doc) i n u hi hname huniq
  have hexists : p.userExists env u =
      (⟨i, if (getUserInternal (some n)).1.enabled then 1 else 0, u, "",
          (getHomeDirectoryInternal n).1, [PermAny]⟩, none) := by
    simp [userExists, hopen, getUser, FilezillaConfiguration.getUsers, hdoc, hrec,
      filezillaUserToUser, (getUserInternal_name n hok).1, (getUserInternal_name n hok).2.1, hsel]
  have hcheck : p.dbHandle.filezilla.validateUserAndPass env u password =
      .ret (verify password passNode.InnerText (findOption n "Salt")) := by
    simp [FilezillaConfiguration.validateUserAndPass, getUserNode, hdoc, hquote, hnode, hpass]
  unfold FilezillaProvider.validateUserAndPass
  rw [if_neg hlen, hexists]
  simp only [hcheck]
  by_cases hv : ToUpper (computedHash password (saltOf (findOption n "Salt")) passNode.InnerText)
      = ToUpper passNode.InnerText
  · rw [if_pos hv, (verify_eq_true_iff _ _ _).mpr hv]
  · rw [if_neg hv]
    have : verify password passNode.InnerText (findOption n "Salt") = false := by
      rw [← Bool.not_eq_true, verify_eq_true_iff]; exact hv
    rw [this]

set_option maxRecDepth 1000000 in
/-- C2 at its failing input. The scenario of the specification behaves as
claimed (alice is accepted with `secret` and rejected with `wrong`); for a
user whose name is `a` followed by a double quote, present in the
configuration with a home directory and a `Pass` option, the existence check
succeeds and the credential check panics instead of returning. -/
theorem validateUserAndPass_quoted_name :
    (initializeFilezillaProvider "alice.xml").validateUserAndPass sampleEnv "alice"
      (bytesOf "secret") = .ret (⟨0, 1, "alice", "", "/data/alice", [PermAny]⟩, none) ∧
    (initializeFilezillaProvider "alice.xml").validateUserAndPass sampleEnv "alice"
      (bytesOf "wrong") = .ret (User.zero, some (Error.new "Invalid password")) ∧
    (initializeFilezillaProvider "quote.xml").userExists sampleEnv (String.mk ['a', Char.ofNat 34])
      = (⟨0, 1, String.mk ['a', Char.ofNat 34], "", "/data/a", [PermAny]⟩, none) ∧
    (initializeFilezillaProvider "quote.xml").validateUserAndPass sampleEnv
      (String.mk ['a', Char.ofNat 34]) (bytesOf "secret") = .panic "xpath: unclosed string" := by
  decide

/-! ## C5, C6: the listing window -/


/-- The loop of `getUsers` as a window: with a limit of at least one and fewer
users collected than the limit, it appends the elements after index `offset`,
up to the limit. -/
theorem getUsersWindow_eq (toUser : FilezillaUser → User) (limit offset : Int) (hlimit : 1 ≤ limit)
    (l : List FilezillaUser) (i : Nat) (users : List User) (hacc : (users.length : Int) < limit) :
    getUsersWindow toUser limit offset i l users =
      users ++ ((l.drop (offset + 1 - i).toNat).take (limit.toNat - users.length)).map toUser := by
  induction l generalizing i users with
  | nil => simp [getUsersWindow]
  | cons x rest ih =>
    unfold getUsersWindow
    by_cases hio : (i : Int) ≤ offset
    · rw [if_pos hio, ih (i + 1) users hacc]
      have e : (offset + 1 - (i : Int)).toNat = (offset + 1 - ((i + 1 : Nat) : Int)).toNat + 1 := by
        omega
      rw [e, List.drop_succ_cons]
    · rw [if_neg hio]
      have e0 : (offset + 1 - (i : Int)).toNat = 0 := by omega
      have e1 : (offset + 1 - ((i + 1 : Nat) : Int)).toNat = 0 := by omega
      rw [e0, List.drop_zero]
      simp only []
      by_cases hfull : ((users ++ [toUser x]).length : Int) ≥ limit
      · rw [if_pos hfull]
        have e2 : limit.toNat - users.length = 1 := by
          simp only [List.length_append, List.length_singleton] at hfull
          omega
        rw [e2]
        simp
      · rw [if_neg hfull]
        have hacc2 : ((users ++ [toUser x]).length : Int) < limit := by omega
        rw [ih (i + 1) (users ++ [toUser x]) hacc2, e1, List.drop_zero]
        have e2 : limit.toNat - users.length = (limit.toNat - (users ++ [toUser x]).length) + 1 := by
          simp only [List.length_append, List.length_singleton] at hfull ⊢
          omega
        rw [e2, List.take_succ_cons]
        simp


theorem insertStable_perm {α : Type} (less : α → α → Bool) (x : α) (l : List α) :
    (insertStable less x l).Perm (x :: l) := by
  induction l with
  | nil => exact List.Perm.refl _
  | cons y ys ih =>
    unfold insertStable
    split_ifs
    · exact (List.Perm.cons y ih).trans (List.Perm.swap x y ys)
    · exact List.Perm.refl _

theorem SliceStable_perm {α : Type} (less : α → α → Bool) (l : List α) :
    (SliceStable less l).Perm l := by
  induction l with
  | nil => exact List.Perm.refl _
  | cons x xs ih =>
    exact (insertStable_perm less x _).trans (List.Perm.cons x ih)

theorem insertStable_pairwise {α : Type} (less : α → α → Bool)
    (hasymm : ∀ a b, less a b = true → less b a = false)
    (hneg : ∀ a b c, less b a = false → less c b = false → less c a = false)
    (x : α) (l : List α) (h : l.Pairwise (fun a b => less b a = false)) :
    (insertStable less x l).Pairwise (fun a b => less b a = false) := by
  induction l with
  | nil => simp [insertStable]
  | cons y ys ih =>
    rw [List.pairwise_cons] at h
    unfold insertStable
    split_ifs with hyx
    · rw [List.pairwise_cons]
      refine ⟨?_, ih h.2⟩
      intro z hz
      have hz2 := (insertStable_perm less x ys).mem_iff.mp hz
      rw [List.mem_cons] at hz2
      rcases hz2 with rfl | hzx
      · exact hasymm _ _ hyx
      · exact h.1 z hzx
    · have hyx2 : less y x = false := by simpa using hyx
      rw [List.pairwise_cons]
      refine ⟨?_, List.pairwise_cons.mpr h⟩
      intro z hz
      rw [List.mem_cons] at hz
      rcases hz with rfl | hz
      · exact hyx2
      · exact hneg x y z hyx2 (h.1 z hz)

theorem SliceStable_pairwise {α : Type} (less : α → α → Bool)
    (hasymm : ∀ a b, less a b = true → less b a = false)
    (hneg : ∀ a b c, less b a = false → less c b = false → less c a = false)
    (l : List α) : (SliceStable less l).Pairwise (fun a b => less b a = false) := by
  induction l with
  | nil => simp [SliceStable]
  | cons x xs ih => exact insertStable_pairwise less hasymm hneg x _ ih

theorem insertStable_filter {α : Type} (less : α → α → Bool) (q : α → Bool) (x : α)
    (hq : ∀ y, less y x = true → q y = true → q x = false) (l : List α) :
    (insertStable less x l).filter q = (x :: l).filter q := by
  induction l with
  | nil => rfl
  | cons y ys ih =>
    unfold insertStable
    split_ifs with hyx
    · rw [List.filter_cons, ih]
      cases hy : q y
      · simp [List.filter_cons, hy]
      · have hx := hq y hyx hy
        simp [List.filter_cons, hy, hx]
    · rfl

theorem SliceStable_filter {α : Type} (less : α → α → Bool) (q : α → Bool)
    (hq : ∀ x y, less y x = true → q y = true → q x = false) (l : List α) :
    (SliceStable less l).filter q = l.filter q := by
  induction l with
  | nil => rfl
  | cons x xs ih =>
    show (insertStable less x (SliceStable less xs)).filter q = _
    rw [insertStable_filter less q x (hq x), List.filter_cons, List.filter_cons, ih]

theorem stringLess_iff (a b : String) : stringLess a b = true ↔ a < b := by
  simp [stringLess, String.lt_iff_toList_lt]

theorem stringLess_false_iff (a b : String) : stringLess a b = false ↔ b ≤ a := by
  rw [← Bool.not_eq_true, stringLess_iff, not_lt]

theorem SliceStable_asc (l : List FilezillaUser) :
    IsStableSortByName true l (SliceStable (fun a b => stringLess a.name b.name) l) := by
  refine ⟨SliceStable_perm _ l, ?_, ?_⟩
  · have := SliceStable_pairwise (fun a b : FilezillaUser => stringLess a.name b.name)
      (fun a b h => by
        rw [stringLess_iff] at h; rw [stringLess_false_iff]; exact le_of_lt h)
      (fun a b c h1 h2 => by
        rw [stringLess_false_iff] at *; exact le_trans h1 h2) l
    refine this.imp ?_
    intro a b h
    simpa [stringLess_false_iff] using h
  · intro k
    apply SliceStable_filter
    intro x y h hy
    rw [stringLess_iff] at h
    simp only [beq_iff_eq] at hy
    simp only [beq_eq_false_iff_ne, ne_eq]
    intro hx
    rw [hx, hy] at h
    exact lt_irrefl _ h

theorem SliceStable_desc (l : List FilezillaUser) :
    IsStableSortByName false l (SliceStable (fun a b => stringLess b.name a.name) l) := by
  refine ⟨SliceStable_perm _ l, ?_, ?_⟩
  · have := SliceStable_pairwise (fun a b : FilezillaUser => stringLess b.name a.name)
      (fun a b h => by
        rw [stringLess_iff] at h; rw [stringLess_false_iff]; exact le_of_lt h)
      (fun a b c h1 h2 => by
        rw [stringLess_false_iff] at *; exact le_trans h2 h1) l
    refine this.imp ?_
    intro a b h
    simpa [stringLess_false_iff] using h
  · intro k
    apply SliceStable_filter
    intro x y h hy
    rw [stringLess_iff] at h
    simp only [beq_iff_eq] at hy
    simp only [beq_eq_false_iff_ne, ne_eq]
    intro hx
    rw [hx, hy] at h
    exact lt_irrefl _ h


/-- Bound on the listing for a limit of at least one. -/
theorem getUsers_length_le (p : FilezillaProvider) (env : Env) (limit offset : Int)
    (hlimit : 1 ≤ limit) (order usernameFilter : String) :
    ((p.getUsers env limit offset order usernameFilter).1.length : Int) ≤ limit := by
  unfold FilezillaProvider.getUsers
  rcases h : p.dbHandle.filezilla.getUsers env with ⟨fzUsers, _ | err⟩
  · simp only []
    rw [getUsersWindow_eq _ _ _ hlimit _ _ _ (by simpa using hlimit)]
    simp only [List.nil_append, List.length_map, List.length_take, List.length_nil, Nat.sub_zero]
    omega
  · simp only [List.length_nil]
    omega

set_option maxRecDepth 100000 in
/-- C5 at its failing input: with limit 0 the listing of bob, carol, dave holds
one user, carol, which is more than the limit. -/
theorem getUsers_limit_zero :
    (initializeFilezillaProvider "listing.xml").getUsers sampleEnv 0 0 "ASC" ""
      = ([⟨1, 0, "carol", "", "/data/carol", [PermAny]⟩], none) ∧
    ¬ (((initializeFilezillaProvider "listing.xml").getUsers sampleEnv 0 0 "ASC" "").1.length ≤ 0) := by
  decide

set_option maxRecDepth 100000 in
/-- C6: for a readable listing, every order string, every limit of at least
one, every non-negative offset and every filter, `getUsers` returns the
canonical mapping of the listing stably sorted by username (ascending for
`ASC`, descending for every other order), its first `offset + 1` elements
dropped, cut to its first `limit` elements; the filter plays no part. For bob,
carol, dave with limit 2, offset 0 and order `ASC` the result is carol, dave. -/
theorem getUsers_eq_window (p : FilezillaProvider) (env : Env) (listing : List FilezillaUser)
    (hread : p.dbHandle.filezilla.getUsers env = (listing, none)) (order : String) :
    (∃ sorted, IsStableSortByName (decide (order = "ASC")) listing sorted ∧
      ∀ limit offset : Int, 1 ≤ limit → 0 ≤ offset → ∀ usernameFilter : String,
        p.getUsers env limit offset order usernameFilter =
          (((sorted.drop (offset.toNat + 1)).take limit.toNat).map p.filezillaUserToUser, none)) ∧
    (initializeFilezillaProvider "listing.xml").getUsers sampleEnv 2 0 "ASC" ""
      = ([⟨1, 0, "carol", "", "/data/carol", [PermAny]⟩,
          ⟨2, 1, "dave", "", "/data/dave", [PermAny]⟩], none) := by
  refine ⟨?_, by decide⟩
  by_cases ho : order = "ASC"
  · refine ⟨SliceStable (fun a b => stringLess a.name b.name) listing, ?_, ?_⟩
    · simpa [ho] using SliceStable_asc listing
    · intro limit offset hlimit hoffset usernameFilter
      unfold FilezillaProvider.getUsers
      rw [hread]
      simp only [ho, if_true]
      rw [getUsersWindow_eq _ _ _ hlimit _ _ _ (by simpa using hlimit)]
      have e : (offset + 1 - ((0 : Nat) : Int)).toNat = offset.toNat + 1 := by omega
      rw [e]
      simp
  · refine ⟨SliceStable (fun a b => stringLess b.name a.name) listing, ?_, ?_⟩
    · simpa [ho] using SliceStable_desc listing
    · intro limit offset hlimit hoffset usernameFilter
      unfold FilezillaProvider.getUsers
      rw [hread]
      simp only [ho, if_false]
      rw [getUsersWindow_eq _ _ _ hlimit _ _ _ (by simpa using hlimit)]
      have e : (offset + 1 - ((0 : Nat) : Int)).toNat = offset.toNat + 1 := by omega
      rw [e]
      simp

set_option maxRecDepth 100000 in
/-- Witness of `getUsers_eq_window`: the listing of bob, carol, dave in
descending order. -/
theorem getUsers_eq_window_witness :
    (initializeFilezillaProvider "listing.xml").dbHandle.filezilla.getUsers sampleEnv
      = ([⟨0, "bob", "/data/bob", true⟩, ⟨1, "carol", "/data/carol", false⟩,
          ⟨2, "dave", "/data/dave", true⟩], none) ∧
    ∃ sorted, IsStableSortByName (decide ("DESC" = "ASC"))
        [⟨0, "bob", "/data/bob", true⟩, ⟨1, "carol", "/data/carol", false⟩,
          ⟨2, "dave", "/data/dave", true⟩] sorted ∧
      ∀ limit offset : Int, 1 ≤ limit → 0 ≤ offset → ∀ usernameFilter : String,
        (initializeFilezillaProvider "listing.xml").getUsers sampleEnv limit offset "DESC"
            usernameFilter =
          (((sorted.drop (offset.toNat + 1)).take limit.toNat).map
            (initializeFilezillaProvider "listing.xml").filezillaUserToUser, none) :=
  ⟨by decide,
   (getUsers_eq_window (initializeFilezillaProvider "listing.xml") sampleEnv
     [⟨0, "bob", "/data/bob", true⟩, ⟨1, "carol", "/data/carol", false⟩,
       ⟨2, "dave", "/data/dave", true⟩] (by decide) "DESC").1⟩

/-! ## C7: lookup by identifier -/


/-- C7 on the code: for an open provider with a readable listing, an ID in
range returns the canonical mapping of the listing element at that position,
an ID at or beyond the length returns a `RecordNotFoundError` carrying the ID,
and a negative ID passes the one-sided range test and panics on the slice
index instead of returning a `RecordNotFoundError`. -/
theorem getUserByID_cases (p : FilezillaProvider) (env : Env) (listing : List FilezillaUser)
    (hopen : p.dbHandle.isClosed = false)
    (hread : p.dbHandle.filezilla.getUsers env = (listing, none)) (ID : Int) :
    (0 ≤ ID → ID < (listing.length : Int) →
      ∃ fzUser, listing[ID.toNat]? = some fzUser ∧
        p.getUserByID env ID = .ret (p.filezillaUserToUser fzUser, none)) ∧
    ((listing.length : Int) ≤ ID →
      p.getUserByID env ID = .ret (User.zero,
        some (Error.RecordNotFoundError ("user with ID " ++ toString ID ++ " does not exist")))) ∧
    (ID < 0 → p.getUserByID env ID = .panic "index out of range") := by
  refine ⟨?_, ?_, ?_⟩
  · intro h0 hlt
    have hn : ID.toNat < listing.length := by omega
    refine ⟨listing[ID.toNat], by simp [hn], ?_⟩
    have hneg : ¬ ID < 0 := by omega
    simp [getUserByID, hopen, hread, hlt, index, hneg, hn]
  · intro hge
    have hnlt : ¬ ID < (listing.length : Int) := by omega
    simp [getUserByID, hopen, hread, hnlt]
  · intro hneg
    have hlt : ID < (listing.length : Int) := by omega
    simp [getUserByID, hopen, hread, hlt, index, hneg]

set_option maxRecDepth 100000 in
/-- Witness of `getUserByID_cases` at the failing input of C7: ID `-1` on the
listing of bob, carol, dave. -/
theorem getUserByID_cases_witness :
    (initializeFilezillaProvider "listing.xml").dbHandle.isClosed = false ∧
    (initializeFilezillaProvider "listing.xml").dbHandle.filezilla.getUsers sampleEnv
      = ([⟨0, "bob", "/data/bob", true⟩, ⟨1, "carol", "/data/carol", false⟩,
          ⟨2, "dave", "/data/dave", true⟩], none) ∧
    (-1 : Int) < 0 ∧
    (initializeFilezillaProvider "listing.xml").getUserByID sampleEnv (-1)
      = .panic "index out of range" :=
  ⟨by decide, by decide, by decide,
   (getUserByID_cases (initializeFilezillaProvider "listing.xml") sampleEnv
     [⟨0, "bob", "/data/bob", true⟩, ⟨1, "carol", "/data/carol", false⟩,
       ⟨2, "dave", "/data/dave", true⟩] (by decide) (by decide) (-1)).2.2 (by decide)⟩

theorem mem_getUsersWindow (toUser : FilezillaUser → User) (limit offset : Int)
    (l : List FilezillaUser) (i : Nat) (users : List User) (u : User)
    (h : u ∈ getUsersWindow toUser limit offset i l users) :
    u ∈ users ∨ ∃ fzUser ∈ l, u = toUser fzUser := by
  induction l generalizing i users with
  | nil => exact Or.inl (by simpa [getUsersWindow] using h)
  | cons x rest ih =>
    unfold getUsersWindow at h
    dsimp only at h
    split_ifs at h with h1 h2
    · rcases ih _ _ h with hu | ⟨fz, hfz, rfl⟩
      · exact Or.inl hu
      · exact Or.inr ⟨fz, List.mem_cons_of_mem _ hfz, rfl⟩
    · rw [List.mem_append, List.mem_singleton] at h
      rcases h with hu | rfl
      · exact Or.inl hu
      · exact Or.inr ⟨x, List.mem_cons_self _ _, rfl⟩
    · rcases ih _ _ h with hu | ⟨fz, hfz, rfl⟩
      · rw [List.mem_append, List.mem_singleton] at hu
        rcases hu with hu | rfl
        · exact Or.inl hu
        · exact Or.inr ⟨x, List.mem_cons_self _ _, rfl⟩
      · exact Or.inr ⟨fz, List.mem_cons_of_mem _ hfz, rfl⟩

/-- Every user of a provider listing is the canonical form of a record of the
configuration listing. -/
theorem mem_getUsers (p : FilezillaProvider) (env : Env) (limit offset : Int)
    (order usernameFilter : String) (u : User)
    (h : u ∈ (p.getUsers env limit offset order usernameFilter).1) :
    ∃ fzUser ∈ (p.dbHandle.filezilla.getUsers env).1, u = p.filezillaUserToUser fzUser := by
  unfold FilezillaProvider.getUsers at h
  rcases hl : p.dbHandle.filezilla.getUsers env with ⟨fzUsers, _ | err⟩
  · rw [hl] at h
    simp only [] at h
    rcases mem_getUsersWindow _ _ _ _ _ _ _ h with hu | ⟨fz, hfz, rfl⟩
    · simp at hu
    · refine ⟨fz, ?_, rfl⟩
      split_ifs at hfz
      · exact (SliceStable_perm _ _).mem_iff.mp hfz
      · exact (SliceStable_perm _ _).mem_iff.mp hfz
  · rw [hl] at h
    simp at h

/-- Records of the configuration listing: each comes from a `User` element with
a home directory and carries the ordinal of the element. -/
theorem mem_config_getUsers (c : FilezillaConfiguration) (env : Env) (fzUser : FilezillaUser)
    (h : fzUser ∈ (c.getUsers env).1) :
    ∃ (doc : Document) (i : Nat) (n : Node), env.parse c.filezillaConfigFilePath = .ok doc ∧ (findUsers doc)[i]? = some n ∧
      (getUserInternal (some n)).2 = none ∧
      fzUser = { (getUserInternal (some n)).1 with id := (i : Int) } := by
  unfold FilezillaConfiguration.getUsers at h
  rcases hd : env.parse c.filezillaConfigFilePath with err | doc
  · rw [hd] at h; simp at h
  · rw [hd] at h
    simp only [] at h
    rw [mem_getUsersRange] at h
    obtain ⟨j, n, hj, hn, hfz⟩ := h
    exact ⟨doc, j, n, rfl, hj, hn, by simpa using hfz⟩

/-! ## C8, C9: users without a home directory, failed checks -/


theorem getHomeDirectoryRange_of_no_home (entries : List Node)
    (h : ∀ e ∈ entries, ∀ o, findOption e "IsHome" = some o → o.InnerText ≠ "1") :
    getHomeDirectoryRange entries = ("", some (Error.new "Cannot find home directory")) := by
  induction entries with
  | nil => rfl
  | cons e es ih =>
    have ih2 := ih (fun e2 he2 => h e2 (List.mem_cons_of_mem _ he2))
    unfold getHomeDirectoryRange
    rcases ho : findOption e "IsHome" with _ | o
    · exact ih2
    · have := h e (List.mem_cons_self _ _) o ho
      simp only [this, if_false]
      exact ih2

/-- A node without a home-marked permission entry yields no record. -/
theorem getUserInternal_of_homeless (n : Node)
    (h : ∀ e ∈ findPermissions n, ∀ o, findOption e "IsHome" = some o → o.InnerText ≠ "1") :
    (getUserInternal (some n)).2 = some (Error.new "Cannot find home directory") := by
  apply getUserInternal_of_no_home
  unfold getHomeDirectoryInternal
  rw [getHomeDirectoryRange_of_no_home _ h]

/-- C8: for a readable configuration and a `User` element, of ordinal `i`,
none of whose permission entries has an `IsHome` option of text `1`: no user of
any `getUsers` result carries that ordinal, and, on an open provider, when no
other `User` element carries the same name, `userExists` and
`validateUserAndPass` with a non-empty password return the not-found error
`No such user: name` with the zero user, whatever else the element holds. -/
theorem homeless_user_absent (p : FilezillaProvider) (env : Env) (doc : Document)
    (i : Nat) (n : Node)
    (hdoc : env.parse p.dbHandle.filezilla.filezillaConfigFilePath = .ok doc)
    (hi : (findUsers doc)[i]? = some n)
    (hhome : ∀ e ∈ findPermissions n, ∀ o, findOption e "IsHome" = some o → o.InnerText ≠ "1") :
    (∀ (limit offset : Int) (order usernameFilter : String),
      ∀ u ∈ (p.getUsers env limit offset order usernameFilter).1, u.ID ≠ (i : Int)) ∧
    (p.dbHandle.isClosed = false →
      (∀ j m, (findUsers doc)[j]? = some m → j ≠ i →
        m.SelectAttr "Name" ≠ n.SelectAttr "Name") →
      p.userExists env (n.SelectAttr "Name")
        = (User.zero, some (Error.new ("No such user: " ++ n.SelectAttr "Name"))) ∧
      ∀ password, password ≠ [] →
        p.validateUserAndPass env (n.SelectAttr "Name") password
          = .ret (User.zero, some (Error.new ("No such user: " ++ n.SelectAttr "Name")))) := by
  have hbad := getUserInternal_of_homeless n hhome
  have hids : ∀ fz ∈ (p.dbHandle.filezilla.getUsers env).1, fz.id ≠ (i : Int) := by
    intro fz hfz hid
    obtain ⟨doc2, j, m, hd2, hj, hm, rfl⟩ := mem_config_getUsers _ _ _ hfz
    rw [hdoc] at hd2
    cases hd2
    simp only [Nat.cast_inj] at hid
    subst hid
    rw [hi] at hj
    cases hj
    rw [hbad] at hm
    cases hm
  refine ⟨?_, ?_⟩
  · intro limit offset order usernameFilter u hu
    obtain ⟨fz, hfz, rfl⟩ := mem_getUsers _ _ _ _ _ _ _ hu
    exact hids fz hfz
  · intro hopen huniq
    have hnone : (getUsersRange 0 (findUsers doc)).find?
        (fun user => user.name == n.SelectAttr "Name") = none := by
      rw [List.find?_eq_none]
      intro fz hfz
      have hfz2 : fz ∈ (p.dbHandle.filezilla.getUsers env).1 := by
        simp [FilezillaConfiguration.getUsers, hdoc, hfz]
      rw [mem_getUsersRange] at hfz
      obtain ⟨j, m, hj, hm, rfl⟩ := hfz
      simp only [beq_iff_eq]
      rw [(getUserInternal_name m hm).1]
      by_cases hji : j = i
      · exact absurd (by simp [hji]) (hids _ hfz2)
      · exact huniq j m hj hji
    have hex : p.userExists env (n.SelectAttr "Name")
        = (User.zero, some (Error.new ("No such user: " ++ n.SelectAttr "Name"))) := by
      simp [userExists, hopen, getUser, FilezillaConfiguration.getUsers, hdoc, hnone]
    refine ⟨hex, ?_⟩
    intro password hpw
    have hlen : password.length ≠ 0 := fun h0 => hpw (List.length_eq_zero.mp h0)
    unfold FilezillaProvider.validateUserAndPass
    rw [if_neg hlen, hex]

set_option maxRecDepth 100000 in
/-- Witness of `homeless_user_absent`: erin, first user of the sample
configuration, whose only permission entry has `IsHome` set to `0`. -/
theorem homeless_user_absent_witness :
    sampleEnv.parse
      (initializeFilezillaProvider "homeless.xml").dbHandle.filezilla.filezillaConfigFilePath
      = .ok homelessDocument ∧
    ((findUsers homelessDocument)[0]?).map (fun m => m.SelectAttr "Name") = some "erin" ∧
    (∀ u ∈ ((initializeFilezillaProvider "homeless.xml").getUsers sampleEnv 10 (-1) "ASC" "").1,
      u.ID ≠ ((0 : Nat) : Int)) ∧
    (initializeFilezillaProvider "homeless.xml").userExists sampleEnv "erin"
      = (User.zero, some (Error.new "No such user: erin")) :=
  have hyp : ∀ e ∈ findPermissions
      (sampleUser "erin" [("Pass", "5ebe2294ecd0e0f08eab7690d2a6ee69")] [("/data/erin", "0")]),
      ∀ o, findOption e "IsHome" = some o → o.InnerText ≠ "1" := by
    intro e he o ho
    have he2 : e = Node.element "Permission" [("Dir", "/data/erin")]
        [Node.element "Option" [("Name", "IsHome")] [Node.text "0"]] := by
      simpa [findPermissions, sampleUser, Node.children, Node.isElement] using he
    subst he2
    have ho2 : o = Node.element "Option" [("Name", "IsHome")] [Node.text "0"] := by
      simpa [findOption, Node.children, Node.isElement, Node.attr?] using ho.symm
    subst ho2
    decide
  have huniq : ∀ j m, (findUsers homelessDocument)[j]? = some m → j ≠ 0 →
      m.SelectAttr "Name" ≠ (sampleUser "erin" [("Pass", "5ebe2294ecd0e0f08eab7690d2a6ee69")]
        [("/data/erin", "0")]).SelectAttr "Name" := by
    intro j m hj hne
    have hl : findUsers homelessDocument =
        [sampleUser "erin" [("Pass", "5ebe2294ecd0e0f08eab7690d2a6ee69")] [("/data/erin", "0")],
         sampleUser "frank" [] [("/data/frank", "1")]] := rfl
    rw [hl] at hj
    match j, hj, hne with
    | 0, _, hne => exact absurd rfl hne
    | 1, hj, _ =>
      simp only [List.getElem?_cons_succ, List.getElem?_cons_zero, Option.some.injEq] at hj
      subst hj
      decide
    | k + 2, hj, _ => simp at hj
  ⟨rfl, by decide,
   (homeless_user_absent (initializeFilezillaProvider "homeless.xml") sampleEnv homelessDocument 0
     (sampleUser "erin" [("Pass", "5ebe2294ecd0e0f08eab7690d2a6ee69")] [("/data/erin", "0")])
     rfl rfl hyp).1 10 (-1) "ASC" "",
   ((homeless_user_absent (initializeFilezillaProvider "homeless.xml") sampleEnv homelessDocument 0
     (sampleUser "erin" [("Pass", "5ebe2294ecd0e0f08eab7690d2a6ee69")] [("/data/erin", "0")])
     rfl rfl hyp).2 rfl huniq).1⟩

/-- Every error path of `userExists` returns the zero user. -/
theorem userExists_error_zero (p : FilezillaProvider) (env : Env) (username : String)
    (user : User) (err : Error) (h : p.userExists env username = (user, some err)) :
    user = User.zero := by
  unfold userExists at h
  split_ifs at h with hc
  · exact (congrArg Prod.fst h).symm
  · rcases hg : p.dbHandle.filezilla.getUser env username with ⟨fz, _ | e⟩
    · rw [hg] at h
      simp only [] at h
      split_ifs at h
      · exact (congrArg Prod.fst h).symm
      · cases (congrArg Prod.snd h)
    · rw [hg] at h
      exact (congrArg Prod.fst h).symm

/-- C9: with an empty password `validateUserAndPass` returns the
empty-credential error for every provider state, configuration and user name,
and whenever it returns an error the user it returns is the zero user. -/
theorem validateUserAndPass_error_zero :
    (∀ (p : FilezillaProvider) (env : Env) (username : String),
      p.validateUserAndPass env username []
        = .ret (User.zero, some (Error.new "Credentials cannot be null or empty"))) ∧
    (∀ (p : FilezillaProvider) (env : Env) (username : String) (password : List UInt8)
      (user : User) (err : Error),
      p.validateUserAndPass env username password = .ret (user, some err) → user = User.zero) := by
  refine ⟨fun p env username => rfl, ?_⟩
  intro p env username password user err h
  unfold FilezillaProvider.validateUserAndPass at h
  split_ifs at h with hlen
  · cases h; rfl
  · rcases hex : p.userExists env username with ⟨u, _ | e⟩
    · rw [hex] at h
      simp only [] at h
      rcases hv : p.dbHandle.filezilla.validateUserAndPass env username password with b | r
      · rw [hv] at h
        cases b
        · cases h; rfl
        · cases h
      · rw [hv] at h
        cases h
    · rw [hex] at h
      simp only [] at h
      cases h
      exact userExists_error_zero p env username _ _ hex

set_option maxRecDepth 1000000 in
/-- Witness of `validateUserAndPass_error_zero`: alice with a wrong password. -/
theorem validateUserAndPass_error_zero_witness :
    (initializeFilezillaProvider "alice.xml").validateUserAndPass sampleEnv "alice"
      (bytesOf "wrong") = .ret (User.zero, some (Error.new "Invalid password")) ∧
    User.zero = User.zero :=
  ⟨by decide,
   validateUserAndPass_error_zero.2 (initializeFilezillaProvider "alice.xml") sampleEnv "alice"
     (bytesOf "wrong") User.zero (Error.new "Invalid password") (by decide)⟩

/-! ## C10: the canonical user -/


/-- The canonical form of a record of the configuration listing. -/
theorem canonical_of_mem (p : FilezillaProvider) (env : Env) (fzUser : FilezillaUser)
    (h : fzUser ∈ (p.dbHandle.filezilla.getUsers env).1) :
    ∃ doc, env.parse p.dbHandle.filezilla.filezillaConfigFilePath = .ok doc ∧
      IsCanonicalUser doc (p.filezillaUserToUser fzUser) := by
  obtain ⟨doc, i, n, hd, hi, hn, rfl⟩ := mem_config_getUsers _ _ _ h
  refine ⟨doc, hd, i, n, (getUserInternal (some n)).1, hi, ?_, ?_⟩
  · exact Prod.ext rfl hn
  · simp [filezillaUserToUser]

theorem index_mem {α : Type} (xs : List α) (i : Int) (x : α) (h : index xs i = .ret x) :
    x ∈ xs := by
  unfold index at h
  split_ifs at h
  rcases hg : xs.get? i.toNat with _ | y
  · rw [hg] at h; cases h
  · rw [hg] at h
    cases h
    exact List.get?_mem hg

theorem userExists_ok_mem (p : FilezillaProvider) (env : Env) (username : String) (u : User)
    (h : p.userExists env username = (u, none)) :
    ∃ fzUser ∈ (p.dbHandle.filezilla.getUsers env).1, u = p.filezillaUserToUser fzUser := by
  unfold userExists at h
  split_ifs at h with hc
  · cases (congrArg Prod.snd h)
  · unfold getUser at h
    rcases hl : p.dbHandle.filezilla.getUsers env with ⟨users, _ | e⟩
    · rw [hl] at h
      simp only [] at h
      rcases hf : users.find? (fun user => user.name == username) with _ | fz
      · rw [hf] at h
        cases (congrArg Prod.snd h)
      · rw [hf] at h
        simp only [] at h
        split_ifs at h
        · cases (congrArg Prod.snd h)
        · exact ⟨fz, List.mem_of_find?_eq_some hf, (congrArg Prod.fst h).symm⟩
    · rw [hl] at h
      cases (congrArg Prod.snd h)

/-- C10: every user returned without error by `getUsers`, `getUserByID`,
`userExists` or `validateUserAndPass` is the canonical user of a `User` element
of the parsed configuration: its ID is the ordinal of the element, its name,
home directory and status are those of the record read from the element
(status 1 when enabled, 0 otherwise), its password is empty and its permission
set is the single "any" permission. -/
theorem returned_users_canonical (p : FilezillaProvider) (env : Env) :
    (∀ (limit offset : Int) (order usernameFilter : String),
      ∀ u ∈ (p.getUsers env limit offset order usernameFilter).1,
        ∃ doc, env.parse p.dbHandle.filezilla.filezillaConfigFilePath = .ok doc ∧
          IsCanonicalUser doc u) ∧
    (∀ (ID : Int) (u : User), p.getUserByID env ID = .ret (u, none) →
      ∃ doc, env.parse p.dbHandle.filezilla.filezillaConfigFilePath = .ok doc ∧
        IsCanonicalUser doc u) ∧
    (∀ (username : String) (u : User), p.userExists env username = (u, none) →
      ∃ doc, env.parse p.dbHandle.filezilla.filezillaConfigFilePath = .ok doc ∧
        IsCanonicalUser doc u) ∧
    (∀ (username : String) (password : List UInt8) (u : User),
      p.validateUserAndPass env username password = .ret (u, none) →
      ∃ doc, env.parse p.dbHandle.filezilla.filezillaConfigFilePath = .ok doc ∧
        IsCanonicalUser doc u) := by
  refine ⟨?_, ?_, ?_, ?_⟩
  · intro limit offset order usernameFilter u hu
    obtain ⟨fz, hfz, rfl⟩ := mem_getUsers _ _ _ _ _ _ _ hu
    exact canonical_of_mem p env fz hfz
  · intro ID u h
    unfold getUserByID at h
    split_ifs at h with hc
    · cases h
    · rcases hl : p.dbHandle.filezilla.getUsers env with ⟨users, _ | e⟩
      · rw [hl] at h
        simp only [] at h
        split_ifs at h with hlt
        · rcases hx : index users ID with fz | r
          · rw [hx] at h
            cases h
            exact canonical_of_mem p env fz (by rw [hl]; exact index_mem _ _ _ hx)
          · rw [hx] at h
            cases h
        · cases h
      · rw [hl] at h
        cases h
  · intro username u h
    obtain ⟨fz, hfz, rfl⟩ := userExists_ok_mem p env username u h
    exact canonical_of_mem p env fz hfz
  · intro username password u h
    unfold FilezillaProvider.validateUserAndPass at h
    split_ifs at h with hlen
    · cases h
    · rcases hex : p.userExists env username with ⟨u2, _ | e⟩
      · rw [hex] at h
        simp only [] at h
        rcases hv : p.dbHandle.filezilla.validateUserAndPass env username password with b | r
        · rw [hv] at h
          cases b
          · cases h
          · cases h
            obtain ⟨fz, hfz, rfl⟩ := userExists_ok_mem p env username _ hex
            exact canonical_of_mem p env fz hfz
        · rw [hv] at h
          cases h
      · rw [hex] at h
        cases h

/-- The fields of a canonical user, read off the `User` element. -/
theorem IsCanonicalUser_fields (doc : Document) (u : User) (h : IsCanonicalUser doc u) :
    ∃ (i : Nat) (n : Node), (findUsers doc)[i]? = some n ∧
      (getHomeDirectoryInternal n).2 = none ∧
      u = ⟨(i : Int),
        if (match findOption n "Enabled" with
            | none => true
            | some e => decide (e.InnerText = "1")) then 1 else 0,
        n.SelectAttr "Name", "", (getHomeDirectoryInternal n).1, [PermAny]⟩ := by
  obtain ⟨i, n, fz, hi, hfz, h1, h2, h3, h4, h5, h6⟩ := h
  have hok : (getUserInternal (some n)).2 = none := by rw [hfz]
  obtain ⟨hn, hh, hhome⟩ := getUserInternal_name n hok
  refine ⟨i, n, hi, hhome, ?_⟩
  have hen : fz.enabled = (match findOption n "Enabled" with
            | none => true
            | some e => decide (e.InnerText = "1")) := by
    rcases hh2 : getHomeDirectoryInternal n with ⟨home, _ | err⟩
    · simp [getUserInternal, hh2] at hfz
      exact (congrArg FilezillaUser.enabled hfz).symm
    · simp [hh2] at hhome
  rw [hfz] at hn hh
  simp only [] at hn hh
  cases u
  simp only [User.mk.injEq] at *
  subst h1 h2 h3 h4 h5 h6
  exact ⟨rfl, by rw [hen], hn, rfl, hh, rfl⟩

set_option maxRecDepth 1000000 in
/-- Witness of `returned_users_canonical`: alice accepted with `secret`. -/
theorem returned_users_canonical_witness :
    (initializeFilezillaProvider "alice.xml").validateUserAndPass sampleEnv "alice"
      (bytesOf "secret") = .ret (⟨0, 1, "alice", "", "/data/alice", [PermAny]⟩, none) ∧
    ∃ doc, sampleEnv.parse
        (initializeFilezillaProvider "alice.xml").dbHandle.filezilla.filezillaConfigFilePath
        = .ok doc ∧
      IsCanonicalUser doc ⟨0, 1, "alice", "", "/data/alice", [PermAny]⟩ :=
  ⟨by decide,
   (returned_users_canonical (initializeFilezillaProvider "alice.xml") sampleEnv).2.2.2 "alice"
     (bytesOf "secret") ⟨0, 1, "alice", "", "/data/alice", [PermAny]⟩ (by decide)⟩

/-! ## C2, continued: names with a double quote -/


/-- Credential check for a name whose last character is its only double quote:
when the existence check succeeds and the password is not empty, the call
panics. -/
theorem validateUserAndPass_trailing_quote (p : FilezillaProvider) (env : Env)
    (username : String) (password : List UInt8) (user : User)
    (hquote : username.data.count (Char.ofNat 34) = 1)
    (hlast : username.data.getLast? = some (Char.ofNat 34))
    (hpw : password ≠ [])
    (hexists : p.userExists env username = (user, none)) :
    p.validateUserAndPass env username password = .panic "xpath: unclosed string" := by
  have hlen : password.length ≠ 0 := fun h0 => hpw (List.length_eq_zero.mp h0)
  obtain ⟨fz, hfz, _⟩ := userExists_ok_mem p env username user hexists
  obtain ⟨doc, _, _, hdoc, _⟩ := mem_config_getUsers _ _ _ hfz
  have hnode : p.dbHandle.filezilla.validateUserAndPass env username password
      = .panic "xpath: unclosed string" := by
    simp [FilezillaConfiguration.validateUserAndPass, getUserNode, hdoc, hquote, hlast]
  unfold FilezillaProvider.validateUserAndPass
  rw [if_neg hlen, hexists]
  simp only [hnode]

/-! ## C11, C12: fixed results and the state machine -/


/-- C11: for every argument and every provider state, `updateQuota`,
`addUser`, `updateUser` and `deleteUser` return the same unsupported-feature
error, `validateUserAndPubKey` returns that error with the zero user and an
empty key, `updateLastLogin` returns no error and `getUsedQuota` returns
`(0, 0, nil)`; the open/closed flag of the handle after each of these calls is
the flag before it. -/
theorem unsupported_operations (p : FilezillaProvider) :
    (∀ username filesAdd sizeAdd reset,
      p.updateQuota username filesAdd sizeAdd reset = some errFilezillaUnsupportsThisFeature ∧
      ((Op.updateQuota username filesAdd sizeAdd reset).after p).dbHandle.isClosed
        = p.dbHandle.isClosed) ∧
    (∀ user, p.addUser user = some errFilezillaUnsupportsThisFeature ∧
      ((Op.addUser user).after p).dbHandle.isClosed = p.dbHandle.isClosed) ∧
    (∀ user, p.updateUser user = some errFilezillaUnsupportsThisFeature ∧
      ((Op.updateUser user).after p).dbHandle.isClosed = p.dbHandle.isClosed) ∧
    (∀ user, p.deleteUser user = some errFilezillaUnsupportsThisFeature ∧
      ((Op.deleteUser user).after p).dbHandle.isClosed = p.dbHandle.isClosed) ∧
    (∀ username pubKey,
      p.validateUserAndPubKey username pubKey
        = (User.zero, "", some errFilezillaUnsupportsThisFeature) ∧
      ((Op.validateUserAndPubKey username pubKey).after p).dbHandle.isClosed
        = p.dbHandle.isClosed) ∧
    (∀ username, p.updateLastLogin username = none ∧
      ((Op.updateLastLogin username).after p).dbHandle.isClosed = p.dbHandle.isClosed) ∧
    (∀ username, p.getUsedQuota username = (0, 0, none) ∧
      ((Op.getUsedQuota username).after p).dbHandle.isClosed = p.dbHandle.isClosed) :=
  ⟨fun _ _ _ _ => ⟨rfl, rfl⟩, fun _ => ⟨rfl, rfl⟩, fun _ => ⟨rfl, rfl⟩, fun _ => ⟨rfl, rfl⟩,
   fun _ _ => ⟨rfl, rfl⟩, fun _ => ⟨rfl, rfl⟩, fun _ => ⟨rfl, rfl⟩⟩

/-- A call other than `close` leaves the handle as it was. -/
theorem after_eq_or_close (p : FilezillaProvider) (op : Op) :
    op.after p = p ∨ (op = Op.close ∧ op.after p = p.close.1) := by
  cases op <;> first | exact Or.inl rfl | exact Or.inr ⟨rfl, rfl⟩

theorem close_cases (p : FilezillaProvider) :
    (p.dbHandle.isClosed = false ∧ p.close.2 = none ∧ p.close.1.dbHandle.isClosed = true ∧
      p.close.1.dbHandle.filezilla = p.dbHandle.filezilla) ∨
    (p.dbHandle.isClosed = true ∧ p.close.2 = some errFilezillaProviderClosed ∧
      p.close.1 = p) := by
  cases h : p.dbHandle.isClosed
  · exact Or.inl ⟨rfl, by simp [close, h], by simp [close, h], by simp [close, h]⟩
  · exact Or.inr ⟨rfl, by simp [close, h], by simp [close, h]⟩

theorem after_filezilla (p : FilezillaProvider) (op : Op) :
    (op.after p).dbHandle.filezilla = p.dbHandle.filezilla := by
  rcases after_eq_or_close p op with h | ⟨_, h⟩
  · rw [h]
  · rw [h]
    rcases close_cases p with ⟨_, _, _, h4⟩ | ⟨_, _, h3⟩
    · exact h4
    · rw [h3]

theorem after_closed (p : FilezillaProvider) (op : Op) (hc : p.dbHandle.isClosed = true) :
    (op.after p).dbHandle.isClosed = true := by
  rcases after_eq_or_close p op with h | ⟨_, h⟩
  · rw [h]; exact hc
  · rw [h]
    rcases close_cases p with ⟨h1, _⟩ | ⟨_, _, h3⟩
    · rw [hc] at h1; cases h1
    · rw [h3]; exact hc

theorem runOps_closed (p : FilezillaProvider) (ops : List Op) (hc : p.dbHandle.isClosed = true) :
    (runOps p ops).dbHandle.isClosed = true := by
  induction ops generalizing p with
  | nil => exact hc
  | cons op ops ih => exact ih (op.after p) (after_closed p op hc)

theorem runOps_filezilla (p : FilezillaProvider) (ops : List Op) :
    (runOps p ops).dbHandle.filezilla = p.dbHandle.filezilla := by
  induction ops generalizing p with
  | nil => rfl
  | cons op ops ih => exact (ih (op.after p)).trans (after_filezilla p op)

/-- C12: the handle is a two-state machine. A new provider is open; a call
changes the open/closed flag only if it is `close` on an open handle, and then
to closed; `close` returns no error exactly when the handle is open, which is
exactly when it changes the flag, and otherwise the closed-provider error; no
sequence of calls takes a closed handle back to open; `checkAvailability`
succeeds exactly on an open handle; no sequence of calls changes the
configuration path. -/
theorem provider_state_machine :
    (∀ configName, (initializeFilezillaProvider configName).dbHandle.isClosed = false) ∧
    (∀ (p : FilezillaProvider) (op : Op),
      (op.after p).dbHandle.isClosed ≠ p.dbHandle.isClosed →
        op = Op.close ∧ p.dbHandle.isClosed = false ∧ (op.after p).dbHandle.isClosed = true) ∧
    (∀ p : FilezillaProvider,
      (p.close.2 = none ↔ p.dbHandle.isClosed = false) ∧
      (p.close.2 = none ↔ p.close.1.dbHandle.isClosed ≠ p.dbHandle.isClosed) ∧
      (p.close.2 ≠ none → p.close.2 = some errFilezillaProviderClosed)) ∧
    (∀ (p : FilezillaProvider) (ops : List Op),
      p.dbHandle.isClosed = true → (runOps p ops).dbHandle.isClosed = true) ∧
    (∀ p : FilezillaProvider, p.checkAvailability = none ↔ p.dbHandle.isClosed = false) ∧
    (∀ (p : FilezillaProvider) (ops : List Op),
      (runOps p ops).dbHandle.filezilla.filezillaConfigFilePath
        = p.dbHandle.filezilla.filezillaConfigFilePath) := by
  refine ⟨fun _ => rfl, ?_, ?_, runOps_closed, ?_, ?_⟩
  · intro p op hne
    rcases after_eq_or_close p op with h | ⟨hop, h⟩
    · rw [h] at hne; exact absurd rfl hne
    · rw [h] at hne ⊢
      rcases close_cases p with ⟨h1, _, h3, _⟩ | ⟨_, _, h3⟩
      · exact ⟨hop, h1, h3⟩
      · rw [h3] at hne; exact absurd rfl hne
  · intro p
    rcases close_cases p with ⟨h1, h2, h3, _⟩ | ⟨h1, h2, h3⟩
    · refine ⟨⟨fun _ => h1, fun _ => h2⟩, ⟨fun _ => by rw [h3, h1]; decide, fun _ => h2⟩, ?_⟩
      intro h; exact absurd h2 h
    · refine ⟨⟨fun h => ?_, fun h => ?_⟩, ⟨fun h => ?_, fun h => ?_⟩, fun _ => h2⟩
      · rw [h2] at h; cases h
      · rw [h1] at h; cases h
      · rw [h2] at h; cases h
      · rw [h3] at h; exact absurd rfl h
  · intro p
    cases h : p.dbHandle.isClosed <;> simp [checkAvailability, h]
  · intro p ops
    rw [runOps_filezilla]

/-- Witness of `provider_state_machine`: `close` on a new provider. -/
theorem provider_state_machine_witness :
    ((Op.close).after (initializeFilezillaProvider "listing.xml")).dbHandle.isClosed
      ≠ (initializeFilezillaProvider "listing.xml").dbHandle.isClosed ∧
    (Op.close = Op.close ∧ (initializeFilezillaProvider "listing.xml").dbHandle.isClosed = false ∧
      ((Op.close).after (initializeFilezillaProvider "listing.xml")).dbHandle.isClosed = true) :=
  ⟨by decide,
   provider_state_machine.2.1 (initializeFilezillaProvider "listing.xml") Op.close (by decide)⟩

/-! ## C13, C14: home directory and enabled flag -/


theorem IsHomeEntry_iff (e : Node) :
    IsHomeEntry e = true ↔ ∃ o, findOption e "IsHome" = some o ∧ o.InnerText = "1" := by
  unfold IsHomeEntry
  rcases h : findOption e "IsHome" with _ | o
  · simp
  · simp

/-- The loop over the permission entries returns at the first home entry. -/
theorem getHomeDirectoryRange_eq_find (entries : List Node) :
    getHomeDirectoryRange entries =
      match entries.find? IsHomeEntry with
      | some e => (e.SelectAttr "Dir", none)
      | none => ("", some (Error.new "Cannot find home directory")) := by
  induction entries with
  | nil => rfl
  | cons e es ih =>
    unfold getHomeDirectoryRange
    rw [List.find?_cons]
    rcases h : findOption e "IsHome" with _ | o
    · have : IsHomeEntry e = false := by simp [IsHomeEntry, h]
      simp only [this]
      exact ih
    · by_cases ht : o.InnerText = "1"
      · have : IsHomeEntry e = true := by simp [IsHomeEntry, h, ht]
        simp only [this, ht, if_true]
      · have : IsHomeEntry e = false := by simp [IsHomeEntry, h, ht]
        simp only [this, ht, if_false]
        exact ih

/-- C13: for every user node, home-directory discovery returns the `Dir`
attribute of the first entry, in document order, of `Permissions/Permission`
that is a home entry, and returns the `Cannot find home directory` error
exactly when no entry is a home entry (it returns no other error); an entry is
a home entry exactly when it has an `IsHome` option whose text is `1`, so
entries without the option or with another text are passed over. -/
theorem home_directory_discovery (user : Node) :
    getHomeDirectoryInternal user =
      (match (findPermissions user).find? IsHomeEntry with
       | some e => (e.SelectAttr "Dir", none)
       | none => ("", some (Error.new "Cannot find home directory"))) ∧
    ((getHomeDirectoryInternal user).2 = some (Error.new "Cannot find home directory") ↔
      ∀ e ∈ findPermissions user, IsHomeEntry e = false) ∧
    ((getHomeDirectoryInternal user).2 ≠ none ↔
      ∀ e ∈ findPermissions user, IsHomeEntry e = false) ∧
    (∀ e : Node, IsHomeEntry e = true ↔
      ∃ o, findOption e "IsHome" = some o ∧ o.InnerText = "1") := by
  have h1 : getHomeDirectoryInternal user =
      (match (findPermissions user).find? IsHomeEntry with
       | some e => (e.SelectAttr "Dir", none)
       | none => ("", some (Error.new "Cannot find home directory"))) :=
    getHomeDirectoryRange_eq_find _
  refine ⟨h1, ?_, ?_, IsHomeEntry_iff⟩
  · rw [h1]
    rcases hf : (findPermissions user).find? IsHomeEntry with _ | e
    · simp only [true_iff]
      intro e he
      have := List.find?_eq_none.mp hf e he
      simpa using this
    · simp only [reduceCtorEq, false_iff]
      intro hall
      have := hall e (List.mem_of_find?_eq_some hf)
      rw [List.find?_some hf] at this
      cases this
  · rw [h1]
    rcases hf : (findPermissions user).find? IsHomeEntry with _ | e
    · simp only [ne_eq, reduceCtorEq, not_false_eq_true, true_iff]
      intro e he
      have := List.find?_eq_none.mp hf e he
      simpa using this
    · simp only [ne_eq, not_true_eq_false, false_iff]
      intro hall
      have := hall e (List.mem_of_find?_eq_some hf)
      rw [List.find?_some hf] at this
      cases this

/-- With at most one `IsHome` option in an entry, the entry is a home entry
exactly when some `IsHome` option of it has the text `1`. -/
theorem IsHomeEntry_of_single_option (e : Node)
    (hone : (e.children.filter fun c =>
      c.isElement "Option" && c.attr? "Name" == some "IsHome").length ≤ 1) :
    IsHomeEntry e = true ↔
      ∃ o ∈ e.children, (o.isElement "Option" && o.attr? "Name" == some "IsHome") = true ∧
        o.InnerText = "1" := by
  rw [IsHomeEntry_iff]
  constructor
  · rintro ⟨o, ho, ht⟩
    have hp : (fun c : Node => c.isElement "Option" && c.attr? "Name" == some "IsHome") o
        = true :=
      @List.find?_some Node
        (fun c : Node => c.isElement "Option" && c.attr? "Name" == some "IsHome") o _ ho
    exact ⟨o, List.mem_of_find?_eq_some ho, hp, ht⟩
  · rintro ⟨o, ho, hp, ht⟩
    refine ⟨o, ?_, ht⟩
    unfold findOption
    rcases hf : e.children.find? (fun c =>
        c.isElement "Option" && c.attr? "Name" == some "IsHome") with _ | o2
    · have := List.find?_eq_none.mp hf o ho
      exact absurd hp this
    · have m1 : o ∈ e.children.filter (fun c =>
          c.isElement "Option" && c.attr? "Name" == some "IsHome") :=
        List.mem_filter.mpr ⟨ho, hp⟩
      have hp2 : (fun c : Node => c.isElement "Option" && c.attr? "Name" == some "IsHome") o2
          = true :=
        @List.find?_some Node
          (fun c : Node => c.isElement "Option" && c.attr? "Name" == some "IsHome") o2 _ hf
      have m2 : o2 ∈ e.children.filter (fun c =>
          c.isElement "Option" && c.attr? "Name" == some "IsHome") :=
        List.mem_filter.mpr ⟨List.mem_of_find?_eq_some hf, hp2⟩
      generalize e.children.filter (fun c =>
          c.isElement "Option" && c.attr? "Name" == some "IsHome") = l at hone m1 m2
      match l, hone, m1, m2 with
      | [x], _, m1, m2 =>
        simp only [List.mem_singleton] at m1 m2
        rw [m1, ← m2]
        exact hf

/-- C14: for every user node with a resolvable home directory the record is
read without error, and it is enabled, with canonical status 1, when the node
has no `Enabled` option or the text of its `Enabled` option is `1`, and
disabled, with canonical status 0, for every other text. -/
theorem enabled_mapping (p : FilezillaProvider) (n : Node)
    (hhome : (getHomeDirectoryInternal n).2 = none) :
    (getUserInternal (some n)).2 = none ∧
    (findOption n "Enabled" = none →
      (getUserInternal (some n)).1.enabled = true ∧
      (p.filezillaUserToUser (getUserInternal (some n)).1).Status = 1) ∧
    (∀ e, findOption n "Enabled" = some e → e.InnerText = "1" →
      (getUserInternal (some n)).1.enabled = true ∧
      (p.filezillaUserToUser (getUserInternal (some n)).1).Status = 1) ∧
    (∀ e, findOption n "Enabled" = some e → e.InnerText ≠ "1" →
      (getUserInternal (some n)).1.enabled = false ∧
      (p.filezillaUserToUser (getUserInternal (some n)).1).Status = 0) := by
  rcases hh : getHomeDirectoryInternal n with ⟨home, _ | err⟩
  · refine ⟨by simp [getUserInternal, hh], ?_, ?_, ?_⟩
    · intro hnone
      simp [getUserInternal, hh, hnone, filezillaUserToUser]
    · intro e he ht
      simp [getUserInternal, hh, he, ht, filezillaUserToUser]
    · intro e he ht
      simp [getUserInternal, hh, he, ht, filezillaUserToUser]
  · simp [hh] at hhome


/-- Witness of `home_directory_discovery`: carol, whose first permission entry
is not a home entry and whose second is. -/
theorem home_directory_discovery_witness :
    (findPermissions (sampleUser "carol" [("Enabled", "0")]
        [("/srv", "0"), ("/data/carol", "1")])).map IsHomeEntry = [false, true] ∧
    getHomeDirectoryInternal (sampleUser "carol" [("Enabled", "0")]
        [("/srv", "0"), ("/data/carol", "1")]) = ("/data/carol", none) ∧
    ¬ ((getHomeDirectoryInternal (sampleUser "carol" [("Enabled", "0")]
        [("/srv", "0"), ("/data/carol", "1")])).2
      = some (Error.new "Cannot find home directory")) :=
  ⟨by decide, by decide,
   fun h => absurd
     (((home_directory_discovery (sampleUser "carol" [("Enabled", "0")]
        [("/srv", "0"), ("/data/carol", "1")])).2.1.mp h)
       (Node.element "Permission" [("Dir", "/data/carol")]
         [Node.element "Option" [("Name", "IsHome")] [Node.text "1"]])
       (by simp [findPermissions, sampleUser, Node.children, Node.isElement]))
     (by decide)⟩

/-- Witness of `enabled_mapping`: carol, whose `Enabled` option has the text `0`. -/
theorem enabled_mapping_witness :
    (getHomeDirectoryInternal (sampleUser "carol" [("Enabled", "0")]
        [("/srv", "0"), ("/data/carol", "1")])).2 = none ∧
    (getUserInternal (some (sampleUser "carol" [("Enabled", "0")]
        [("/srv", "0"), ("/data/carol", "1")]))).1.enabled = false ∧
    ((initializeFilezillaProvider "listing.xml").filezillaUserToUser
      (getUserInternal (some (sampleUser "carol" [("Enabled", "0")]
        [("/srv", "0"), ("/data/carol", "1")]))).1).Status = 0 :=
  ⟨by decide,
   (enabled_mapping (initializeFilezillaProvider "listing.xml")
     (sampleUser "carol" [("Enabled", "0")] [("/srv", "0"), ("/data/carol", "1")])
     (by decide)).2.2.2
     (Node.element "Option" [("Name", "Enabled")] [Node.text "0"]) rfl (by decide)⟩

/-! ## C15 to C18: identifiers and the two lookups of a user -/


set_option maxRecDepth 100000 in
/-- C15 at its failing input: in a configuration whose first `User` element
has no home directory, frank is listed with ID 1 and grace with ID 2, but
`getUserByID 1` returns grace and `getUserByID 2` returns a
`RecordNotFoundError`. -/
theorem getUserByID_shifted :
    (initializeFilezillaProvider "shifted.xml").userExists secondEnv "frank"
      = (⟨1, 1, "frank", "", "/data/frank", [PermAny]⟩, none) ∧
    (initializeFilezillaProvider "shifted.xml").getUserByID secondEnv 1
      = .ret (⟨2, 1, "grace", "", "/data/grace", [PermAny]⟩, none) ∧
    (initializeFilezillaProvider "shifted.xml").getUsers secondEnv 10 (-1) "ASC" ""
      = ([⟨1, 1, "frank", "", "/data/frank", [PermAny]⟩,
          ⟨2, 1, "grace", "", "/data/grace", [PermAny]⟩], none) ∧
    (initializeFilezillaProvider "shifted.xml").getUserByID secondEnv 2
      = .ret (User.zero, some (Error.RecordNotFoundError "user with ID 2 does not exist")) := by
  decide

set_option maxRecDepth 100000 in
/-- C16 at its failing input: in the same configuration `getNextID` returns
2, the ID of the listed user grace. The other half of the claim holds:
`getNextID` returns `-1` exactly when the listing cannot be read. -/
theorem getNextID_not_fresh :
    (initializeFilezillaProvider "shifted.xml").getUsers secondEnv 10 (-1) "ASC" ""
      = ([⟨1, 1, "frank", "", "/data/frank", [PermAny]⟩,
          ⟨2, 1, "grace", "", "/data/grace", [PermAny]⟩], none) ∧
    (initializeFilezillaProvider "shifted.xml").getNextID secondEnv = 2 ∧
    (∀ (p : FilezillaProvider) (env : Env),
      p.getNextID env = -1 ↔ (p.dbHandle.filezilla.getUsers env).2 ≠ none) := by
  refine ⟨by decide, by decide, ?_⟩
  intro p env
  unfold getNextID
  rcases h : p.dbHandle.filezilla.getUsers env with ⟨l, _ | err⟩
  · simp only [ne_eq, not_true_eq_false, iff_false]
    omega
  · simp

set_option maxRecDepth 1000000 in
/-- C17 at its failing input: bob has a home directory and no `Pass` option;
the existence check succeeds and the credential check panics on the missing
node instead of returning an error. -/
theorem validateUserAndPass_missing_pass :
    (initializeFilezillaProvider "listing.xml").userExists sampleEnv "bob"
      = (⟨0, 1, "bob", "", "/data/bob", [PermAny]⟩, none) ∧
    (initializeFilezillaProvider "listing.xml").validateUserAndPass sampleEnv "bob"
      (bytesOf "secret") = .panic "invalid memory address or nil pointer dereference" := by
  decide

set_option maxRecDepth 1000000 in
/-- C18 at its failing input: two `User` elements are named gina. The call
with the password `secret` succeeds and returns the user of the second element
(ID 1, home `/data/gina`), while the hash that was verified is the one of the
element found by `getUserNode`, the first element, which has no home
directory; the hash of the second element rejects `secret`, and its own
password, `wrong`, is refused. -/
theorem validateUserAndPass_twin :
    (initializeFilezillaProvider "twin.xml").validateUserAndPass secondEnv "gina"
      (bytesOf "secret") = .ret (⟨1, 1, "gina", "", "/data/gina", [PermAny]⟩, none) ∧
    (initializeFilezillaProvider "twin.xml").dbHandle.filezilla.getUserNode secondEnv "gina"
      = .ret ((findUsers twinDocument)[0]?) ∧
    ((findUsers twinDocument)[0]?.map fun n =>
        ((findOption n "Pass").map Node.InnerText, (getHomeDirectoryInternal n).2))
      = some (some "5ebe2294ecd0e0f08eab7690d2a6ee69",
          some (Error.new "Cannot find home directory")) ∧
    ((findUsers twinDocument)[1]?.map fun n =>
        ((findOption n "Pass").map Node.InnerText, getHomeDirectoryInternal n))
      = some (some "2bda2998d9b0ee197da142a0447f6725", ("/data/gina", none)) ∧
    verify (bytesOf "secret") "2bda2998d9b0ee197da142a0447f6725" none = false ∧
    (initializeFilezillaProvider "twin.xml").validateUserAndPass secondEnv "gina"
      (bytesOf "wrong") = .ret (User.zero, some (Error.new "Invalid password")) := by
  refine ⟨by decide, rfl, by decide, by decide, by decide, by decide⟩


/-- Credential check when the `Pass` option is missing: on an open provider,
for a name without a double quote carried by one `User` element only, which has
a home directory and no `Pass` option, the call panics for every non-empty
password. -/
theorem validateUserAndPass_no_pass (p : FilezillaProvider) (env : Env) (doc : Document)
    (i : Nat) (n : Node) (u : String) (password : List UInt8)
    (hopen : p.dbHandle.isClosed = false)
    (hdoc : env.parse p.dbHandle.filezilla.filezillaConfigFilePath = .ok doc)
    (hi : (findUsers doc)[i]? = some n)
    (hname : n.attr? "Name" = some u)
    (huniq : ∀ j m, (findUsers doc)[j]? = some m → m.SelectAttr "Name" = u → j = i)
    (hhome : (getHomeDirectoryInternal n).2 = none)
    (hpass : findOption n "Pass" = none)
    (hquote : u.data.count (Char.ofNat 34) = 0)
    (hpw : password ≠ []) :
    p.validateUserAndPass env u password
      = .panic "invalid memory address or nil pointer dereference" := by
  have hlen : password.length ≠ 0 := fun h0 => hpw (List.length_eq_zero.mp h0)
  have hsel := SelectAttr_of_attr n _ _ hname
  have hok := getUserInternal_of_home n hhome
  have hrec := find_getUsersRange (findUsers doc) i n u hi hsel hhome huniq
  have hnode := find_node_by_name (findUsers doc) i n u hi hname huniq
  have hneg : ¬ ((i : Int) < 0) := by omega
  have hexists : (p.userExists env u).2 = none := by
    simp [userExists, hopen, getUser, FilezillaConfiguration.getUsers, hdoc, hrec, hneg]
  have hcheck : p.dbHandle.filezilla.validateUserAndPass env u password =
      .panic "invalid memory address or nil pointer dereference" := by
    simp [FilezillaConfiguration.validateUserAndPass, getUserNode, hdoc, hquote, hnode, hpass]
  unfold FilezillaProvider.validateUserAndPass
  rw [if_neg hlen]
  rcases hex : p.userExists env u with ⟨user, _ | err⟩
  · simp only [hcheck]
  · rw [hex] at hexists
    cases hexists

/-- The listing when every `User` element has a home directory: one record per
element, at the position of the element. -/
theorem getUsersRange_getElem (nodes : List Node) (k : Nat)
    (hall : ∀ n ∈ nodes, (getUserInternal (some n)).2 = none) (j : Nat) :
    (getUsersRange k nodes)[j]? =
      (nodes[j]?).map fun n =>
        ({ (getUserInternal (some n)).1 with id := ((k + j : Nat) : Int) } : FilezillaUser) := by
  induction nodes generalizing k j with
  | nil => simp [getUsersRange]
  | cons m ms ih =>
    have hm := hall m (List.mem_cons_self _ _)
    have ih2 := ih (k + 1) (fun n hn => hall n (List.mem_cons_of_mem _ hn))
    unfold getUsersRange
    rcases h : getUserInternal (some m) with ⟨user, _ | err⟩
    · cases j with
      | zero => simp [h]
      | succ j =>
        simp only [List.getElem?_cons_succ]
        rw [ih2 j]
        have e : k + 1 + j = k + (j + 1) := by omega
        rw [e]
    · rw [h] at hm
      cases hm

theorem getUsersRange_length (nodes : List Node) (k : Nat)
    (hall : ∀ n ∈ nodes, (getUserInternal (some n)).2 = none) :
    (getUsersRange k nodes).length = nodes.length := by
  induction nodes generalizing k with
  | nil => rfl
  | cons m ms ih =>
    have hm := hall m (List.mem_cons_self _ _)
    unfold getUsersRange
    rcases h : getUserInternal (some m) with ⟨user, _ | err⟩
    · simp [ih (k + 1) (fun n hn => hall n (List.mem_cons_of_mem _ hn))]
    · rw [h] at hm
      cases hm

/-- Position of a record in the listing when no element is skipped. -/
theorem listing_getElem_id (p : FilezillaProvider) (env : Env) (doc : Document)
    (hdoc : env.parse p.dbHandle.filezilla.filezillaConfigFilePath = .ok doc)
    (hall : ∀ n ∈ findUsers doc, (getHomeDirectoryInternal n).2 = none)
    (fzUser : FilezillaUser) (h : fzUser ∈ (p.dbHandle.filezilla.getUsers env).1) :
    0 ≤ fzUser.id ∧ fzUser.id < ((p.dbHandle.filezilla.getUsers env).1.length : Int) ∧
    (p.dbHandle.filezilla.getUsers env).1[fzUser.id.toNat]? = some fzUser := by
  have hall2 : ∀ n ∈ findUsers doc, (getUserInternal (some n)).2 = none :=
    fun n hn => getUserInternal_of_home n (hall n hn)
  have hl : (p.dbHandle.filezilla.getUsers env).1 = getUsersRange 0 (findUsers doc) := by
    simp [FilezillaConfiguration.getUsers, hdoc]
  rw [hl] at h ⊢
  rw [mem_getUsersRange] at h
  obtain ⟨j, n, hj, _, rfl⟩ := h
  have hjlt : j < (findUsers doc).length := by
    rcases List.getElem?_eq_some.mp hj with ⟨hlt, _⟩
    exact hlt
  refine ⟨by simp, ?_, ?_⟩
  · rw [getUsersRange_length _ _ hall2]
    simp only [Nat.zero_add]
    exact_mod_cast hjlt
  · simp only [Nat.zero_add, Int.toNat_ofNat]
    rw [getUsersRange_getElem _ _ hall2, hj]
    simp

/-- Identifier round trip and fresh identifier when every `User` element has a
home directory: on an open provider, `getUserByID` of the ID of a user returned
by `getUsers` or `userExists` returns that user, and `getNextID` is greater
than the ID of every user of the listing. -/
theorem round_trip_of_all_home (p : FilezillaProvider) (env : Env) (doc : Document)
    (hopen : p.dbHandle.isClosed = false)
    (hdoc : env.parse p.dbHandle.filezilla.filezillaConfigFilePath = .ok doc)
    (hall : ∀ n ∈ findUsers doc, (getHomeDirectoryInternal n).2 = none) :
    (∀ (limit offset : Int) (order usernameFilter : String),
      ∀ u ∈ (p.getUsers env limit offset order usernameFilter).1,
        p.getUserByID env u.ID = .ret (u, none) ∧ u.ID < p.getNextID env) ∧
    (∀ (username : String) (u : User), p.userExists env username = (u, none) →
      p.getUserByID env u.ID = .ret (u, none) ∧ u.ID < p.getNextID env) := by
  have key : ∀ fz ∈ (p.dbHandle.filezilla.getUsers env).1,
      p.getUserByID env (p.filezillaUserToUser fz).ID = .ret (p.filezillaUserToUser fz, none) ∧
      (p.filezillaUserToUser fz).ID < p.getNextID env := by
    intro fz hfz
    obtain ⟨h0, hlt, hget⟩ := listing_getElem_id p env doc hdoc hall fz hfz
    obtain ⟨l, hl⟩ : ∃ l, p.dbHandle.filezilla.getUsers env = (l, none) :=
      ⟨getUsersRange 0 (findUsers doc), by simp [FilezillaConfiguration.getUsers, hdoc]⟩
    rw [hl] at hlt hget
    simp only [] at hlt hget
    have hid : (p.filezillaUserToUser fz).ID = fz.id := rfl
    have hneg : ¬ fz.id < 0 := by omega
    constructor
    · rw [hid]
      unfold getUserByID
      simp [hopen, hl, hlt, index, hneg, hget]
    · rw [hid]
      unfold getNextID
      rw [hl]
      exact hlt
  constructor
  · intro limit offset order usernameFilter u hu
    obtain ⟨fz, hfz, rfl⟩ := mem_getUsers _ _ _ _ _ _ _ hu
    exact key fz hfz
  · intro username u hu
    obtain ⟨fz, hfz, rfl⟩ := userExists_ok_mem p env username u hu
    exact key fz hfz

end Dataprovider
